import Mathlib

/-!
Verification of the AgriPredict forecasting engine
(analysis-service/models/forecast_models.py) against its design
specification.  The engine is embedded shallowly: floats become exact
rationals, pandas frames become lists of rows, the thread pool becomes a
deterministic fold keyed by technique identifier (the source joins all
tasks and keys results by name, so arrival order is irrelevant), and the
external numeric collaborators that are out of scope for the repository
(statsmodels fits, the trained CatBoost artifact, library square roots)
become oracle fields of a `Backends` record.  Every definition mirrors the
corresponding Python function; line numbers in doc comments refer to
forecast_models.py.
-/

namespace AgriPredict

/-- Read from an insertion-ordered association list, mirroring a Python
dict lookup. -/
def dictGet {α : Type} (k : String) : List (String × α) → Option α
  | [] => none
  | (k2, v) :: rest => if k2 = k then some v else dictGet k rest

/-- Write to an insertion-ordered association list, mirroring a Python
dict write: an existing key keeps its position, a new key is appended. -/
def dictInsert {α : Type} (k : String) (v : α) : List (String × α) → List (String × α)
  | [] => [(k, v)]
  | (k2, v2) :: rest => if k2 = k then (k, v) :: rest else (k2, v2) :: dictInsert k v rest

def dictKeys {α : Type} (d : List (String × α)) : List String :=
  d.map (fun p => p.1)

def dictValues {α : Type} (d : List (String × α)) : List α :=
  d.map (fun p => p.2)

/-- ASCII lowercase of one character, the effect of str.lower() on the
identifier alphabet the engine compares against. -/
def charLower (c : Char) : Char :=
  if c.isUpper then Char.ofNat (c.toNat + 32) else c

/-- str.lower() on an identifier string. -/
def strLower (s : String) : String := String.mk (s.data.map charLower)

/-- Arithmetic mean of a list of rationals (pandas mean).  The mean of an
empty list is 0 here where pandas yields NaN; every use in the engine is
guarded so that the list is nonempty. -/
def qmean (l : List ℚ) : ℚ := l.sum / l.length

/-- Sample variance with ddof = 1, the square of the pandas std.  Defined
for lists of length at least 2; shorter lists give 0 where pandas yields
NaN, and every engine use is guarded accordingly. -/
def sampleVar (l : List ℚ) : ℚ :=
  ((l.map (fun x => (x - qmean l) ^ 2)).sum) / ((l.length : ℚ) - 1)

/-- Population variance with ddof = 0, the square of np.std. -/
def popVar (l : List ℚ) : ℚ :=
  ((l.map (fun x => (x - qmean l) ^ 2)).sum) / (l.length : ℚ)

/-- Round to the nearest integer, ties to even, the behaviour of the
Python builtin round on an exact value. -/
def roundHalfEven (x : ℚ) : ℤ :=
  if x - (⌊x⌋ : ℚ) < 1 / 2 then ⌊x⌋
  else if 1 / 2 < x - (⌊x⌋ : ℚ) then ⌊x⌋ + 1
  else if ⌊x⌋ % 2 = 0 then ⌊x⌋ else ⌊x⌋ + 1

/-- Python round(x, d) on an exact rational. -/
def roundTo (d : ℕ) (x : ℚ) : ℚ :=
  ((roundHalfEven (x * 10 ^ d) : ℤ) : ℚ) / 10 ^ d

def round2 (x : ℚ) : ℚ := roundTo 2 x

def round4 (x : ℚ) : ℚ := roundTo 4 x

/-- The last n entries of a list in order (pandas tail). -/
def tailN (n : ℕ) (l : List ℚ) : List ℚ := l.drop (l.length - n)

/-- Dot product of a weight list with a value list, the generator-sum
pattern sum of w * v over zip(ws, xs) used by the ensemble aggregator. -/
def weightedSum (ws xs : List ℚ) : ℚ :=
  ((ws.zip xs).map (fun p => p.1 * p.2)).sum

/-- One validated record of the historical series.  Dates are abstracted
to day indices; the engine only reads the column values and adds whole
days to the maximal date. -/
structure Row where
  date : ℕ
  quantity : ℚ
  price : ℚ
deriving DecidableEq

/-- Mirror of the dataclass ForecastResult (lines 160-168).  The per
result metrics dict is carried by the source but never read by any
modeled consumer (the response bundle takes metrics from the engine
state), so it is omitted; the ensemble weight field is likewise unread. -/
structure ForecastResult where
  values : List ℚ
  confidence_lower : Option (List ℚ) := none
  confidence_upper : Option (List ℚ) := none
  model_name : String := ""
deriving DecidableEq

/-- Mirror of the metrics dict built by calculate_all_metrics
(lines 144-151): each entry is a float or None. -/
structure Metrics where
  mae : Option ℚ
  rmse : Option ℚ
  mape : Option ℚ
  bias : Option ℚ
  mase : Option ℚ
  r_squared : Option ℚ
deriving DecidableEq

/-- The mutable per-instance engine attributes set in ForecastEngine
init (lines 173-177): model_weights and model_metrics live on the
long-lived engine object and are threaded through every call. -/
structure EngineState where
  model_metrics : List (String × Metrics)
  model_weights : List (String × ℚ)
deriving DecidableEq

/-- The state of a freshly constructed engine (lines 176-177). -/
def emptyState : EngineState := { model_metrics := [], model_weights := [] }

/-- Oracles for the external numeric collaborators declared out of scope
by the specification.  A statsmodels fit either fails (None) or yields a
per-step forecast function together with an optional confidence-interval
function (None when conf_int itself raises); the trained CatBoost
artifact, when loaded, maps the history and a day index to a prediction
(feature construction and the per-day except that substitutes the last
price are folded into this total function); sqrtNN stands for the
library square root used by pandas std, np.std and RMSE. -/
structure Backends where
  statsmodelsAvailable : Bool
  catboostAvailable : Bool
  es : List Row → Option ((ℕ → ℚ) × Option (ℕ → ℚ × ℚ))
  arima : List Row → Option ((ℕ → ℚ) × Option (ℕ → ℚ × ℚ))
  catboostModel : Option (List Row → ℕ → ℚ)
  sqrtNN : ℚ → ℚ

/-- Pandas Series.std of a price list: the library square root of the
sample variance. -/
def pdStd (B : Backends) (l : List ℚ) : ℚ := B.sqrtNN (sampleVar l)

/-- ForecastMetrics.calculate_all_metrics (lines 85-157).  The NaN and
infinity filter of lines 104-107 is vacuous over exact rationals.  MAE,
MAPE, bias, MASE and the R squared formula are exact; RMSE goes through
the square-root oracle.  sklearn r2_score with a constant truth series
returns 1 for a perfect fit and 0 otherwise. -/
def calculate_all_metrics (B : Backends) (y_true y_pred : List ℚ)
    (y_train : Option (List ℚ)) : Metrics :=
  if y_true.length == 0 || y_true.length != y_pred.length then
    { mae := none, rmse := none, mape := none, bias := none, mase := none, r_squared := none }
  else
    let pairs := y_true.zip y_pred
    let mae := qmean (pairs.map (fun p => |p.1 - p.2|))
    let mse := qmean (pairs.map (fun p => (p.1 - p.2) ^ 2))
    let nz := pairs.filter (fun p => p.1 != 0)
    let mape : Option ℚ :=
      if nz.length ≠ 0 then some (qmean (nz.map (fun p => |(p.1 - p.2) / p.1|)) * 100)
      else none
    let bias := qmean (pairs.map (fun p => p.2 - p.1))
    let mase : Option ℚ :=
      match y_train with
      | some tr =>
        if 1 < tr.length then
          let scaling := qmean ((tr.zip tr.tail).map (fun p => |p.2 - p.1|))
          if 0 < scaling then some (mae / scaling) else none
        else none
      | none => none
    let ssRes := (pairs.map (fun p => (p.1 - p.2) ^ 2)).sum
    let ssTot := (y_true.map (fun t => (t - qmean y_true) ^ 2)).sum
    let r2 : ℚ := if ssTot == 0 then (if ssRes == 0 then 1 else 0) else 1 - ssRes / ssTot
    { mae := some (round4 mae)
    , rmse := some (round4 (B.sqrtNN mse))
    , mape := mape.map round4
    , bias := some (round4 bias)
    , mase := mase.map round4
    , r_squared := some (round4 r2) }

/-- generate_sma_forecast (lines 350-383).  rolling(window).mean().iloc[-1]
is the mean of the last window prices, never NaN once length ≥ 7, so the
isna fallback of line 364 is dead. -/
def generate_sma_forecast (B : Backends) (df : List Row) (days : ℕ)
    (include_confidence : Bool) : Except String ForecastResult :=
  if df.length < 7 then .error ("Insufficient data for SMA")
  else
    let prices := df.map (fun r => r.price)
    let window := min 7 df.length
    let sma := qmean (tailN window prices)
    let values := List.replicate days sma
    let sd := pdStd B prices
    .ok { values := values
        , confidence_lower :=
            if include_confidence then some (values.map (fun v => v - sd * (1 / 2))) else none
        , confidence_upper :=
            if include_confidence then some (values.map (fun v => v + sd * (1 / 2))) else none
        , model_name := "SMA" }

/-- generate_wma_forecast (lines 385-421): linearly increasing weights
1..window, normalized, applied to the window tail. -/
def generate_wma_forecast (B : Backends) (df : List Row) (days : ℕ)
    (include_confidence : Bool) : Except String ForecastResult :=
  if df.length < 7 then .error ("Insufficient data for WMA")
  else
    let prices := df.map (fun r => r.price)
    let window := min 7 df.length
    let wraw := (List.range window).map (fun (i : ℕ) => ((i : ℚ) + 1))
    let ws := wraw.map (fun w => w / wraw.sum)
    let wma := weightedSum ws (tailN window prices)
    let values := List.replicate days wma
    let sd := pdStd B prices
    .ok { values := values
        , confidence_lower :=
            if include_confidence then some (values.map (fun v => v - sd * (3 / 10))) else none
        , confidence_upper :=
            if include_confidence then some (values.map (fun v => v + sd * (3 / 10))) else none
        , model_name := "WMA" }

/-- generate_es_forecast (lines 423-474).  The seasonal fit and its
prediction intervals come from the statsmodels oracle; a present
interval function is the in-sample get_prediction().conf_int() whose
tail(days) yields min(days, length) rows (reindexed here from 0), and a
missing one is the inner except that falls back to historical-std
bounds. -/
def generate_es_forecast (B : Backends) (df : List Row) (days : ℕ)
    (include_confidence : Bool) : Except String ForecastResult :=
  if ¬ B.statsmodelsAvailable then .error ("statsmodels not available")
  else if df.length < 7 then .error ("Insufficient data for Exponential Smoothing")
  else
    match B.es df with
    | none => .error ("ES fit failed")
    | some (f, ciOpt) =>
      let values := (List.range days).map f
      let sd := pdStd B (df.map (fun r => r.price))
      let bnds : Option (List ℚ × List ℚ) :=
        if include_confidence then
          match ciOpt with
          | some ci =>
            some ((List.range (min days df.length)).map (fun i => (ci i).1),
                  (List.range (min days df.length)).map (fun i => (ci i).2))
          | none =>
            some (values.map (fun v => v - sd), values.map (fun v => v + sd))
        else none
      .ok { values := values
          , confidence_lower := bnds.map (fun p => p.1)
          , confidence_upper := bnds.map (fun p => p.2)
          , model_name := "ES" }

/-- generate_arima_forecast (lines 476-527).  get_forecast(days).conf_int()
has exactly one row per forecast day. -/
def generate_arima_forecast (B : Backends) (df : List Row) (days : ℕ)
    (include_confidence : Bool) : Except String ForecastResult :=
  if ¬ B.statsmodelsAvailable then .error ("statsmodels not available")
  else if df.length < 10 then .error ("Insufficient data for ARIMA")
  else
    match B.arima df with
    | none => .error ("ARIMA fit failed")
    | some (f, ciOpt) =>
      let values := (List.range days).map f
      let sd := pdStd B (df.map (fun r => r.price))
      let bnds : Option (List ℚ × List ℚ) :=
        if include_confidence then
          match ciOpt with
          | some ci =>
            some ((List.range days).map (fun i => (ci i).1),
                  (List.range days).map (fun i => (ci i).2))
          | none =>
            some (values.map (fun v => v - sd), values.map (fun v => v + sd))
        else none
      .ok { values := values
          , confidence_lower := bnds.map (fun p => p.1)
          , confidence_upper := bnds.map (fun p => p.2)
          , model_name := "ARIMA" }

/-- catboost_trend_fallback (lines 649-662): the mean day-over-day
percentage change extrapolated linearly across the horizon.  pct_change
of a series of length below 2 has no finite entries, so its mean isna
and the trend defaults to 0 (line 652). -/
def catboost_trend_fallback (df : List Row) (days : ℕ) : List ℚ :=
  let prices := df.map (fun r => r.price)
  let pct := (prices.zip prices.tail).map (fun p => (p.2 - p.1) / p.1)
  let recent_trend := if pct.length = 0 then 0 else qmean pct
  let last_price := prices.getLastD 0
  (List.range days).map (fun (i : ℕ) => last_price * (1 + recent_trend * ((i : ℚ) + 1) / (days : ℚ)))

/-- predict_with_catboost (lines 585-647) for a loaded artifact: one
prediction per forecast day.  Calendar and lag feature construction, and
the per-day except that substitutes the last price, are folded into the
total oracle function. -/
def predict_with_catboost (model : List Row → ℕ → ℚ) (df : List Row) (days : ℕ) : List ℚ :=
  (List.range days).map (model df)

/-- generate_catboost_forecast (lines 529-583): trained-model or
trend-fallback values, then confidence bounds that widen with each day
and whose lower side is clamped at zero.  The volatility_factor of line
560 is computed by the source but never used. -/
def generate_catboost_forecast (B : Backends) (df : List Row) (days : ℕ)
    (include_confidence : Bool) : Except String ForecastResult :=
  if ¬ B.catboostAvailable then .error ("CatBoost not available")
  else if df.length < 10 then .error ("Insufficient data for CatBoost")
  else
    let values :=
      match B.catboostModel with
      | some m => predict_with_catboost m df days
      | none => catboost_trend_fallback df days
    let sd := pdStd B (df.map (fun r => r.price))
    .ok { values := values
        , confidence_lower :=
            if include_confidence then
              some (values.enum.map (fun p => max 0 (p.2 - sd * (1 + (p.1 : ℚ) / 10))))
            else none
        , confidence_upper :=
            if include_confidence then
              some (values.enum.map (fun p => p.2 + sd * (1 + (p.1 : ℚ) / 10)))
            else none
        , model_name := "CatBoost" }

/-- generate_fallback_forecast, try branch (lines 664-680): constant
historical mean with wide bounds.  The branch cannot raise on a frame
with a price column, so the except branch (the ultimate hardcoded
fallback, modeled below) is unreachable from the engine. -/
def generate_fallback_forecast (B : Backends) (df : List Row) (days : ℕ) : ForecastResult :=
  let prices := df.map (fun r => r.price)
  let avg_price := qmean prices
  let values := List.replicate days avg_price
  let std_dev := if 1 < df.length then pdStd B prices else avg_price * (1 / 10)
  { values := values
  , confidence_lower := some (values.map (fun v => v - std_dev * 2))
  , confidence_upper := some (values.map (fun v => v + std_dev * 2))
  , model_name := "Fallback" }

/-- generate_fallback_forecast, except branch (lines 682-690): the
ultimate hardcoded forecast, constant 100 with bounds 80 and 120. -/
def ultimate_fallback_forecast (days : ℕ) : ForecastResult :=
  { values := List.replicate days 100
  , confidence_lower := some (List.replicate days 80)
  , confidence_upper := some (List.replicate days 120)
  , model_name := "Fallback" }

/-- hasattr(self, f-string _generate_name_forecast) over the lowercased
technique identifier (lines 261-262, 307): the methods that exist are
the five adapters, the fallback, and the two ensemble entry points. -/
def hasForecastMethod (name : String) : Bool :=
  strLower name == "sma" || strLower name == "wma" || strLower name == "es" ||
  strLower name == "arima" || strLower name == "catboost" || strLower name == "fallback" ||
  strLower name == "ensemble" || strLower name == "weighted_ensemble"

/-- getattr dispatch with the positional arguments (df, days,
include_confidence) used at lines 263 and 308-313.  _generate_fallback_forecast
takes only (df, days), and the two ensemble methods take a result dict as
first argument, so calling any of them this way raises a TypeError or
ValueError; those names therefore dispatch to an error. -/
def dispatchModel (B : Backends) (name : String) (df : List Row) (days : ℕ)
    (include_confidence : Bool) : Except String ForecastResult :=
  if strLower name == "sma" then generate_sma_forecast B df days include_confidence
  else if strLower name == "wma" then generate_wma_forecast B df days include_confidence
  else if strLower name == "es" then generate_es_forecast B df days include_confidence
  else if strLower name == "arima" then generate_arima_forecast B df days include_confidence
  else if strLower name == "catboost" then generate_catboost_forecast B df days include_confidence
  else .error ("TypeError: wrong argument arity")

/-- One iteration of the metric loop of _calculate_model_metrics
(lines 256-276): backtest the technique on the training prefix, store
its metrics, and derive an unnormalized weight (1 over MAE when MAE is
defined and positive, else 1); any exception in the body defaults the
weight to 1 with no metrics entry.  A result with empty values is falsy
at line 264 and leaves the state untouched. -/
def metricsLoopStep (B : Backends) (train : List Row) (y_true y_train : List ℚ)
    (forecast_days : ℕ) (acc : EngineState) (name : String) : EngineState :=
  if strLower name == "ensemble" then acc
  else if ¬ hasForecastMethod name then acc
  else
    match dispatchModel B name train forecast_days false with
    | .error _ => { acc with model_weights := dictInsert name 1 acc.model_weights }
    | .ok r =>
      if r.values.isEmpty then acc
      else
        let y_pred := r.values.take y_true.length
        let met := calculate_all_metrics B y_true y_pred (some y_train)
        let acc2 := { acc with model_metrics := dictInsert name met acc.model_metrics }
        match met.mae with
        | some m =>
          if 0 < m then
            { acc2 with model_weights := dictInsert name (1 / m) acc2.model_weights }
          else
            { acc2 with model_weights := dictInsert name 1 acc2.model_weights }
        | none => { acc2 with model_weights := dictInsert name 1 acc2.model_weights }

/-- The engine state reached by the metric loop of lines 256-276, before
normalization: the fold of metricsLoopStep over the requested models on
the holdout split of df. -/
def metricsLoopState (B : Backends) (S : EngineState) (df : List Row)
    (forecast_days : ℕ) (models : List String) : EngineState :=
  let train := df.take (df.length - forecast_days)
  let test := df.drop (df.length - forecast_days)
  models.foldl
    (metricsLoopStep B train (test.map (fun r => r.price)) (train.map (fun r => r.price))
      forecast_days) S

/-- _calculate_model_metrics (lines 242-286): holdout split, the metric
loop over the requested techniques, then normalization of the whole
weight table when its total is positive. -/
def calculate_model_metrics (B : Backends) (S : EngineState) (df : List Row)
    (forecast_days : ℕ) (models : List String) : EngineState :=
  let train := df.take (df.length - forecast_days)
  if train.length < 10 then S
  else
    let S2 := metricsLoopState B S df forecast_days models
    let total := (dictValues S2.model_weights).sum
    if 0 < total then
      { S2 with model_weights := S2.model_weights.map (fun p => (p.1, p.2 / total)) }
    else S2

/-- _apply_scenario_adjustment (lines 288-292). -/
def apply_scenario_adjustment (df : List Row) (multiplier : ℚ) : List Row :=
  df.map (fun r => { r with price := r.price * multiplier })

/-- _get_scenario_multiplier (lines 341-348). -/
def scenario_multiplier (scenario : String) : ℚ :=
  if strLower scenario == "optimistic" then 11 / 10
  else if strLower scenario == "pessimistic" then 9 / 10
  else 1

/-- _should_generate_ensemble (lines 337-339). -/
def should_generate_ensemble (models : List String) : Bool :=
  (models.map (fun m => strLower m)).contains ("ensemble")

/-- _generate_model_forecasts (lines 294-329): one task per requested
non-ensemble technique whose method exists; exceptions are captured per
task and the technique is skipped; a successful result with nonempty
values is stored under the requested name, in request order (the source
keys results by name after joining all tasks, so this deterministic fold
is its observable behaviour). -/
def dispatchedResults (B : Backends) (df : List Row) (days : ℕ)
    (models : List String) (include_confidence : Bool) : List (String × ForecastResult) :=
  (models.filter (fun m => strLower m != "ensemble" && hasForecastMethod m)).foldl
    (fun acc name =>
      match dispatchModel B name df days include_confidence with
      | .error _ => acc
      | .ok r => if r.values.isEmpty then acc else dictInsert name r acc)
    []

/-- _handle_fallback_forecast (lines 331-335). -/
def handle_fallback_forecast (B : Backends) (df : List Row) (days : ℕ) :
    List (String × ForecastResult) :=
  [("Fallback", generate_fallback_forecast B df days)]

/-- The contributor collection loop of _generate_weighted_ensemble_forecast
(lines 713-723): every non-ensemble result whose values cover the
horizon, with its first days values. -/
def ensembleContributors (mr : List (String × ForecastResult)) (days : ℕ) :
    List (String × List ℚ) :=
  (mr.filter (fun p => strLower p.1 != "ensemble" && decide (days ≤ p.2.values.length))).map
    (fun p => (p.1, p.2.values.take days))

/-- The weight read of line 722: the stored weight of the technique, or
the default 1 over the size of the whole result dict. -/
def ensembleRawWeights (S : EngineState) (mr : List (String × ForecastResult)) (days : ℕ) :
    List ℚ :=
  (ensembleContributors mr days).map
    (fun p => (dictGet p.1 S.model_weights).getD (1 / (mr.length : ℚ)))

/-- The normalization of lines 728-733: divide by a positive total, else
fall back to equal weights. -/
def normalizeWeights (ws : List ℚ) : List ℚ :=
  if 0 < ws.sum then ws.map (fun w => w / ws.sum)
  else List.replicate ws.length (1 / (ws.length : ℚ))

/-- The normalized point-forecast weights of the ensemble. -/
def ensembleWeights (S : EngineState) (mr : List (String × ForecastResult)) (days : ℕ) :
    List ℚ :=
  normalizeWeights (ensembleRawWeights S mr days)

/-- The bound collection loop of _calculate_weighted_ensemble_confidence
(lines 815-821): every non-ensemble result with a truthy (nonempty)
confidence_lower covering the horizon contributes its truncated bounds.
The source reads confidence_upper without checking it; no adapter
produces a lower bound without an upper one of equal length. -/
def boundContributors (mr : List (String × ForecastResult)) (days : ℕ) :
    List (String × (List ℚ × List ℚ)) :=
  (mr.filter (fun p =>
      strLower p.1 != "ensemble" &&
      (match p.2.confidence_lower with
       | some lo => !lo.isEmpty && decide (days ≤ lo.length)
       | none => false))).map
    (fun p => (p.1, (((p.2.confidence_lower).getD []).take days,
                     ((p.2.confidence_upper).getD []).take days)))

/-- The weight read of line 821: the stored weight, or the default 1. -/
def boundRawWeights (S : EngineState) (mr : List (String × ForecastResult)) (days : ℕ) :
    List ℚ :=
  (boundContributors mr days).map (fun p => (dictGet p.1 S.model_weights).getD 1)

/-- The normalization of lines 825-827: divide by a positive total, else
leave the weights unnormalized. -/
def normalizeBoundWeights (ws : List ℚ) : List ℚ :=
  if 0 < ws.sum then ws.map (fun w => w / ws.sum) else ws

/-- _calculate_weighted_ensemble_confidence (lines 803-846).  The weights
parameter of the source is ignored there; the function recomputes its own
weights from the engine state with default 1.  With no bound contributor
the bounds come from the standard deviation of the ensemble values
(np.std, population), or a tenth of their mean for a single value. -/
def calculate_weighted_ensemble_confidence (B : Backends) (S : EngineState)
    (mr : List (String × ForecastResult)) (ensemble_values : List ℚ) (days : ℕ) :
    List ℚ × List ℚ :=
  let bcs := boundContributors mr days
  if bcs.isEmpty then
    let sd := if 1 < ensemble_values.length then B.sqrtNN (popVar ensemble_values)
              else qmean ensemble_values * (1 / 10)
    (ensemble_values.map (fun v => v - sd), ensemble_values.map (fun v => v + sd))
  else
    let ws := normalizeBoundWeights (boundRawWeights S mr days)
    ((List.range days).map (fun i => weightedSum ws (bcs.map (fun p => p.2.1.getD i 0))),
     (List.range days).map (fun i => weightedSum ws (bcs.map (fun p => p.2.2.getD i 0))))

/-- The per-day weighted sums of lines 736-742: day i of the ensemble is
the dot product of the normalized weights with the contributors day-i
values. -/
def ensembleValues (S : EngineState) (mr : List (String × ForecastResult)) (days : ℕ) :
    List ℚ :=
  (List.range days).map (fun i => weightedSum (ensembleWeights S mr days)
    ((ensembleContributors mr days).map (fun p => p.2.getD i 0)))

/-- _generate_weighted_ensemble_forecast (lines 701-764).  The metrics
aggregation of line 752 populates a field no modeled consumer reads and
is omitted. -/
def generate_weighted_ensemble_forecast (B : Backends) (S : EngineState)
    (mr : List (String × ForecastResult)) (days : ℕ) (include_confidence : Bool) :
    Except String ForecastResult :=
  if mr.isEmpty then .error ("No model results available for ensemble")
  else if (ensembleContributors mr days).isEmpty then
    .error ("No valid predictions for ensemble")
  else
    let ensemble_values := ensembleValues S mr days
    let bnds :=
      if include_confidence then
        some (calculate_weighted_ensemble_confidence B S mr ensemble_values days)
      else none
    .ok { values := ensemble_values
        , confidence_lower := bnds.map (fun p => p.1)
        , confidence_upper := bnds.map (fun p => p.2)
        , model_name := "Ensemble" }

/-- One externally visible forecast day (lines 909-919). -/
structure DataPoint where
  date : ℕ
  predicted_value : ℚ
  model_used : String
  confidence_lower : Option ℚ := none
  confidence_upper : Option ℚ := none
deriving DecidableEq

/-- _prepare_forecast_data (lines 889-927): pick the Ensemble result if
present, else the first stored result, and emit one rounded point per
day.  Indexing an empty dict or a short values list raises in the
source; both are errors here and both are unreachable from the engine
(the result set is never empty and every produced values list covers the
horizon). -/
def prepare_forecast_data (mr : List (String × ForecastResult)) (df : List Row)
    (days : ℕ) : Except String (List DataPoint) :=
  let last_date := (df.map (fun r => r.date)).foldl max 0
  let chosen : Option ForecastResult :=
    match dictGet ("Ensemble") mr with
    | some r => some r
    | none => (mr.map (fun p => p.2)).head?
  match chosen with
  | none => .error ("StopIteration: empty result dict")
  | some r =>
    if days ≤ r.values.length then
      .ok ((List.range days).map (fun i =>
        { date := last_date + i + 1
        , predicted_value := round2 (r.values.getD i 0)
        , model_used := r.model_name
        , confidence_lower :=
            match r.confidence_lower with
            | some lo => if !lo.isEmpty && decide (i < lo.length)
                         then some (round2 (lo.getD i 0)) else none
            | none => none
        , confidence_upper :=
            match r.confidence_upper with
            | some hi => if !hi.isEmpty && decide (i < hi.length)
                         then some (round2 (hi.getD i 0)) else none
            | none => none }))
    else .error ("IndexError: values shorter than horizon")

/-- The engine state after the optional metric step of generate_forecast
(lines 211-213): metrics run only when requested and the adjusted series
is strictly longer than horizon plus 10. -/
def stateAfterMetrics (B : Backends) (S : EngineState) (adjusted : List Row)
    (days : ℕ) (models : List String) (calculate_metrics : Bool) : EngineState :=
  if calculate_metrics && decide (days + 10 < adjusted.length) then
    calculate_model_metrics B S adjusted days models
  else S

/-- The result dict after dispatch, fallback handling and the optional
ensemble insertion (lines 216-225). -/
def finalResults (B : Backends) (S2 : EngineState) (adjusted : List Row) (days : ℕ)
    (models : List String) (include_confidence : Bool) :
    Except String (List (String × ForecastResult)) :=
  let mr0 := dispatchedResults B adjusted days models include_confidence
  let mr1 := if mr0.isEmpty then handle_fallback_forecast B adjusted days else mr0
  if should_generate_ensemble models then
    (generate_weighted_ensemble_forecast B S2 mr1 days include_confidence).map
      (fun er => dictInsert ("Ensemble") er mr1)
  else .ok mr1

/-- The response bundle of lines 230-236. -/
structure ForecastOutput where
  forecast_data : List DataPoint
  models_used : List String
  scenario : String
  model_metrics : List (String × Metrics)
  model_weights : List (String × ℚ)
deriving DecidableEq

/-- generate_forecast (lines 182-240): scenario adjustment, optional
holdout metrics, concurrent dispatch, fallback, optional ensemble,
assembly.  The except of line 238 logs and re-raises, so an error
propagates unchanged; the mutated engine state is returned alongside. -/
def generate_forecast (B : Backends) (S : EngineState) (df : List Row) (days : ℕ)
    (models : List String) (include_confidence : Bool) (scenario : String)
    (calculate_metrics : Bool) : Except String ForecastOutput × EngineState :=
  let adjusted := apply_scenario_adjustment df (scenario_multiplier scenario)
  let S2 := stateAfterMetrics B S adjusted days models calculate_metrics
  match finalResults B S2 adjusted days models include_confidence with
  | .error e => (.error e, S2)
  | .ok mr2 =>
    match prepare_forecast_data mr2 adjusted days with
    | .error e => (.error e, S2)
    | .ok pts =>
      (.ok { forecast_data := pts
           , models_used := dictKeys mr2
           , scenario := scenario
           , model_metrics := S2.model_metrics
           , model_weights := S2.model_weights }, S2)

/-- The result dict before the optional ensemble insertion (lines
216-221): the dispatched results, or the fallback handler's dict when
every task failed. -/
def resultsBeforeEnsemble (B : Backends) (adjusted : List Row) (days : ℕ)
    (models : List String) (inc : Bool) : List (String × ForecastResult) :=
  if (dispatchedResults B adjusted days models inc).isEmpty
  then handle_fallback_forecast B adjusted days
  else dispatchedResults B adjusted days models inc

/-- The ensemble bound aggregation in the words of the specification:
the weighted sum of the contributing techniques' truncated bounds taken
with the same normalized weights as the point forecast.  Refinement
definition, compared with calculate_weighted_ensemble_confidence. -/
def specSameWeightBounds (S : EngineState) (mr : List (String × ForecastResult))
    (days : ℕ) : List ℚ × List ℚ :=
  ((List.range days).map (fun i => weightedSum (ensembleWeights S mr days)
     ((boundContributors mr days).map (fun p => p.2.1.getD i 0))),
   (List.range days).map (fun i => weightedSum (ensembleWeights S mr days)
     ((boundContributors mr days).map (fun p => p.2.2.getD i 0))))

/-- The fallback result in the words of the amended specification:
every value is the mean historical price, and the bounds sit at two
sample standard deviations from the value when the series has more than
one point, and at twenty percent of the mean otherwise.  Refinement
definition, compared with generate_fallback_forecast. -/
def specFallbackResult (B : Backends) (df : List Row) (days : ℕ) : ForecastResult :=
  let prices := df.map (fun r => r.price)
  let avg := qmean prices
  let halfWidth := if 1 < df.length then 2 * B.sqrtNN (sampleVar prices)
                   else avg * (20 / 100)
  { values := List.replicate days avg
  , confidence_lower := some ((List.replicate days avg).map (fun v => v - halfWidth))
  , confidence_upper := some ((List.replicate days avg).map (fun v => v + halfWidth))
  , model_name := "Fallback" }

/-- Build a history with one row per day and unit quantities from a
price list. -/
def mkRows (prices : List ℚ) : List Row :=
  prices.enum.map (fun p => { date := p.1, quantity := 1, price := p.2 })

/-- A constant-price history of n days at price 100. -/
def dfConst (n : ℕ) : List Row := mkRows (List.replicate n 100)

/-- The three-point series of the total-failure scenario. -/
def df3 : List Row := mkRows [10, 20, 30]

/-- A sixteen-day constant history, long enough for the metric pipeline
at horizon 5. -/
def df16 : List Row := dfConst 16

/-- A single-row history for the one-point fallback bounds. -/
def df1 : List Row := mkRows [50]

/-- Backends whose square-root oracle is exact on the variances these
concrete runs produce (variance 100 of the three-point series, and 0). -/
def BC5 : Backends :=
  { statsmodelsAvailable := false
  , catboostAvailable := false
  , es := fun _ => none
  , arima := fun _ => none
  , catboostModel := none
  , sqrtNN := fun q => if q == 100 then 10 else 0 }

/-- Backends with no optional library present and a square-root oracle
that is exact on the only argument these runs produce (0). -/
def Bwit : Backends :=
  { statsmodelsAvailable := false
  , catboostAvailable := false
  , es := fun _ => none
  , arima := fun _ => none
  , catboostModel := none
  , sqrtNN := fun _ => 0 }

/-- Backends whose trained CatBoost artifact predicts the constant -5,
over a constant-price history (variance 0, so the square-root oracle is
exact). -/
def BnegCat : Backends :=
  { statsmodelsAvailable := false
  , catboostAvailable := true
  , es := fun _ => none
  , arima := fun _ => none
  , catboostModel := some (fun _ _ => -5)
  , sqrtNN := fun _ => 0 }

/-- A technique result with full two-day values and bounds, used as a
concrete ensemble input. -/
def rA : ForecastResult :=
  { values := [10, 10], confidence_lower := some [9, 9]
  , confidence_upper := some [11, 11], model_name := "A" }

/-- A second full-bounds technique result. -/
def rB : ForecastResult :=
  { values := [20, 20], confidence_lower := some [18, 18]
  , confidence_upper := some [22, 22], model_name := "B" }

/-- A technique result whose values cover a two-day horizon but whose
bounds cover only one day, the shape an ES result takes when the library
interval is shorter than the horizon. -/
def rE : ForecastResult :=
  { values := [20, 20], confidence_lower := some [8]
  , confidence_upper := some [12], model_name := "E" }

/-- Concrete ensemble input in which one technique has truncated
bounds. -/
def mrC8 : List (String × ForecastResult) := [("a", rA), ("e", rE)]

/-- Concrete ensemble input with two full-bounds techniques. -/
def mrAB : List (String × ForecastResult) := [("a", rA), ("b", rB)]

/-- A technique result is well shaped for a horizon when its values
cover the horizon exactly, any present bound list also covers it
exactly, a lower bound comes with an upper bound, and present bounds
bracket the values pointwise. -/
def GoodRes (days : ℕ) (r : ForecastResult) : Prop :=
  r.values.length = days ∧
  (∀ lo, r.confidence_lower = some lo → lo.length = days) ∧
  (∀ hi, r.confidence_upper = some hi → hi.length = days) ∧
  (r.confidence_lower.isSome → r.confidence_upper.isSome) ∧
  (∀ lo hi, r.confidence_lower = some lo → r.confidence_upper = some hi →
    ∀ i, i < days → lo.getD i 0 ≤ r.values.getD i 0 ∧ r.values.getD i 0 ≤ hi.getD i 0)

/-- Facts true of the real external collaborators, assumed where a claim
needs them: a library square root is nonnegative; a statsmodels
confidence interval brackets the forecast values it accompanies; the
trained CatBoost artifact predicts a nonnegative price. -/
def OracleOK (B : Backends) : Prop :=
  (∀ q, 0 ≤ B.sqrtNN q) ∧
  (∀ df f ci, B.es df = some (f, some ci) → ∀ i, (ci i).1 ≤ f i ∧ f i ≤ (ci i).2) ∧
  (∀ df f ci, B.arima df = some (f, some ci) → ∀ i, (ci i).1 ≤ f i ∧ f i ≤ (ci i).2) ∧
  (∀ m, B.catboostModel = some m → ∀ df i, 0 ≤ m df i)

/-- The unnormalized ensemble weight of a backtested technique in the
words of the specification: 1 over its MAE when the MAE is defined and
positive, and 1 when the technique failed or its MAE is undefined or not
positive.  This refinement definition follows the spec text and is
compared against the loop of the source. -/
def specUnnormalizedWeight (outcome : Option Metrics) : ℚ :=
  match outcome with
  | some met =>
    match met.mae with
    | some m => if 0 < m then 1 / m else 1
    | none => 1
  | none => 1

/-- The backtest outcome of one technique inside the metric loop: its
holdout metrics when the adapter ran on the training prefix and produced
values, and none when it raised. -/
def backtestOutcome (B : Backends) (train : List Row) (y_true y_train : List ℚ)
    (forecast_days : ℕ) (name : String) : Option Metrics :=
  match dispatchModel B name train forecast_days false with
  | .error _ => none
  | .ok r =>
    if r.values.isEmpty then none
    else some (calculate_all_metrics B y_true (r.values.take y_true.length) (some y_train))

theorem roundHalfEven_cases (x : ℚ) :
    roundHalfEven x = ⌊x⌋ ∨ roundHalfEven x = ⌊x⌋ + 1 := by
  unfold roundHalfEven
  split_ifs <;> simp

theorem roundHalfEven_mono {x y : ℚ} (h : x ≤ y) :
    roundHalfEven x ≤ roundHalfEven y := by
  have hf : (⌊x⌋ : ℤ) ≤ ⌊y⌋ := Int.floor_le_floor h
  rcases lt_or_eq_of_le hf with hlt | heq
  · have h1 : roundHalfEven x ≤ ⌊x⌋ + 1 := by
      rcases roundHalfEven_cases x with h2 | h2 <;> omega
    have h3 : ⌊y⌋ ≤ roundHalfEven y := by
      rcases roundHalfEven_cases y with h2 | h2 <;> omega
    omega
  · have hr : x - (⌊x⌋ : ℚ) ≤ y - (⌊y⌋ : ℚ) := by
      rw [← heq]; linarith
    unfold roundHalfEven
    rw [← heq] at hr ⊢
    split_ifs <;> first | omega | linarith

theorem roundTo_mono (d : ℕ) {x y : ℚ} (h : x ≤ y) : roundTo d x ≤ roundTo d y := by
  unfold roundTo
  have hp : (0 : ℚ) < 10 ^ d := by positivity
  have h1 : x * 10 ^ d ≤ y * 10 ^ d := mul_le_mul_of_nonneg_right h (le_of_lt hp)
  have h2 : ((roundHalfEven (x * 10 ^ d) : ℤ) : ℚ) ≤ ((roundHalfEven (y * 10 ^ d) : ℤ) : ℚ) := by
    exact_mod_cast roundHalfEven_mono h1
  exact div_le_div_of_nonneg_right h2 (le_of_lt hp)

theorem round2_mono {x y : ℚ} (h : x ≤ y) : round2 x ≤ round2 y :=
  roundTo_mono 2 h

theorem dictKeys_cons {α : Type} (p : String × α) (d : List (String × α)) :
    dictKeys (p :: d) = p.1 :: dictKeys d := rfl

theorem dictValues_cons {α : Type} (p : String × α) (d : List (String × α)) :
    dictValues (p :: d) = p.2 :: dictValues d := rfl

theorem dictGet_insert_self {α : Type} (k : String) (v : α) (d : List (String × α)) :
    dictGet k (dictInsert k v d) = some v := by
  induction d with
  | nil => simp [dictGet, dictInsert]
  | cons p rest ih =>
    by_cases h : p.1 = k
    · simp [dictGet, dictInsert, h]
    · simp [dictGet, dictInsert, h, ih]

theorem dictGet_insert_ne {α : Type} {k1 k : String} (h : k1 ≠ k) (v : α)
    (d : List (String × α)) : dictGet k1 (dictInsert k v d) = dictGet k1 d := by
  induction d with
  | nil => simp [dictInsert, dictGet, Ne.symm h]
  | cons p rest ih =>
    by_cases h2 : p.1 = k
    · have h3 : ¬ (p.1 = k1) := by rw [h2]; exact Ne.symm h
      simp only [dictInsert, if_pos h2, dictGet, if_neg (Ne.symm h), if_neg h3]
    · by_cases h3 : p.1 = k1
      · simp only [dictInsert, if_neg h2, dictGet, if_pos h3]
      · simp only [dictInsert, if_neg h2, dictGet, if_neg h3, ih]

theorem mem_of_dictGet {α : Type} {k : String} {v : α} {d : List (String × α)}
    (h : dictGet k d = some v) : (k, v) ∈ d := by
  induction d with
  | nil => simp [dictGet] at h
  | cons p rest ih =>
    rcases p with ⟨k2, v2⟩
    simp only [dictGet] at h
    split_ifs at h with h2
    · subst h2
      injection h with h3
      subst h3
      exact List.mem_cons_self _ _
    · exact List.mem_cons_of_mem _ (ih h)

theorem dictInsert_ne_nil {α : Type} (k : String) (v : α) (d : List (String × α)) :
    dictInsert k v d ≠ [] := by
  cases d with
  | nil => simp [dictInsert]
  | cons p rest => simp only [dictInsert]; split_ifs <;> simp

theorem mem_dictValues_insert {α : Type} {w : α} {k : String} {v : α}
    {d : List (String × α)} (h : w ∈ dictValues (dictInsert k v d)) :
    w = v ∨ w ∈ dictValues d := by
  induction d with
  | nil =>
    simp [dictInsert, dictValues] at h
    exact Or.inl h
  | cons p rest ih =>
    simp only [dictInsert] at h
    split_ifs at h with h2
    · rw [dictValues_cons, List.mem_cons] at h
      rcases h with h3 | h3
      · exact Or.inl h3
      · exact Or.inr (by rw [dictValues_cons, List.mem_cons]; exact Or.inr h3)
    · rw [dictValues_cons, List.mem_cons] at h
      rcases h with h3 | h3
      · exact Or.inr (by rw [dictValues_cons, List.mem_cons]; exact Or.inl h3)
      · rcases ih h3 with h4 | h4
        · exact Or.inl h4
        · exact Or.inr (by rw [dictValues_cons, List.mem_cons]; exact Or.inr h4)

theorem dictGet_map {α β : Type} (f : α → β) (k : String) (d : List (String × α)) :
    dictGet k (d.map (fun p => (p.1, f p.2))) = (dictGet k d).map f := by
  induction d with
  | nil => simp [dictGet]
  | cons p rest ih =>
    by_cases h : p.1 = k
    · simp [dictGet, h]
    · simp [dictGet, h, ih]

theorem dictValues_map {α β : Type} (f : α → β) (d : List (String × α)) :
    dictValues (d.map (fun p => (p.1, f p.2))) = (dictValues d).map f := by
  induction d with
  | nil => rfl
  | cons p rest ih => simp [dictValues, ih]

theorem sum_pos_of_forall_pos {ws : List ℚ} (hne : ws ≠ [])
    (hpos : ∀ w ∈ ws, 0 < w) : 0 < ws.sum := by
  induction ws with
  | nil => exact absurd rfl hne
  | cons w rest ih =>
    cases rest with
    | nil => simpa using hpos w (by simp)
    | cons w2 rest2 =>
      have h1 := hpos w (by simp)
      have h2 : 0 < (w2 :: rest2).sum := ih (by simp) (fun w3 h3 => hpos w3 (by simp [h3]))
      simp only [List.sum_cons] at h2 ⊢
      linarith

theorem weightedSum_nil_left (xs : List ℚ) : weightedSum [] xs = 0 := by
  simp [weightedSum]

theorem weightedSum_cons (w x : ℚ) (ws xs : List ℚ) :
    weightedSum (w :: ws) (x :: xs) = w * x + weightedSum ws xs := by
  simp [weightedSum]

theorem weightedSum_le {ws : List ℚ} (hw : ∀ w ∈ ws, 0 ≤ w) :
    ∀ {xs ys : List ℚ}, xs.length = ys.length →
    (∀ i, i < xs.length → xs.getD i 0 ≤ ys.getD i 0) →
    weightedSum ws xs ≤ weightedSum ws ys := by
  induction ws with
  | nil => intro xs ys _ _; simp [weightedSum_nil_left]
  | cons w ws ih =>
    intro xs ys hlen hxy
    cases xs with
    | nil =>
      cases ys with
      | nil => simp [weightedSum]
      | cons y ys => simp at hlen
    | cons x xs =>
      cases ys with
      | nil => simp at hlen
      | cons y ys =>
        rw [weightedSum_cons, weightedSum_cons]
        have h0 : x ≤ y := by simpa using hxy 0 (by simp)
        have hw0 : 0 ≤ w := hw w (by simp)
        have hrest : weightedSum ws xs ≤ weightedSum ws ys := by
          apply ih (fun w2 h2 => hw w2 (by simp [h2])) (by simpa using hlen)
          intro i hi
          simpa using hxy (i + 1) (by simpa using Nat.succ_lt_succ hi)
        have hmul : w * x ≤ w * y := mul_le_mul_of_nonneg_left h0 hw0
        linarith

theorem range_map_getD {l : List ℚ} {n : ℕ} (h : l.length = n) :
    (List.range n).map (fun i => l.getD i 0) = l := by
  apply List.ext_getElem
  · simp [h]
  · intro i h1 h2
    simp only [List.getElem_map, List.getElem_range, List.getD_eq_getElem?_getD]
    rw [List.getElem?_eq_getElem h2]
    rfl

theorem getD_take {l : List ℚ} {n i : ℕ} (h : i < n) :
    (l.take n).getD i 0 = l.getD i 0 := by
  simp only [List.getD_eq_getElem?_getD]
  rw [List.getElem?_take_of_lt h]

theorem getD_replicate {a : ℚ} {n i : ℕ} (h : i < n) :
    (List.replicate n a).getD i 0 = a := by
  simp only [List.getD_eq_getElem?_getD]
  rw [List.getElem?_eq_getElem (by simpa using h)]
  simp

theorem normalizeWeights_length (ws : List ℚ) :
    (normalizeWeights ws).length = ws.length := by
  unfold normalizeWeights
  split_ifs <;> simp

theorem normalizeBoundWeights_eq_of_pos {ws : List ℚ} (hne : ws ≠ [])
    (hpos : ∀ w ∈ ws, 0 < w) : normalizeBoundWeights ws = normalizeWeights ws := by
  unfold normalizeWeights normalizeBoundWeights
  rw [if_pos (sum_pos_of_forall_pos hne hpos), if_pos (sum_pos_of_forall_pos hne hpos)]

theorem normalizeWeights_replicate {n : ℕ} {c : ℚ} (hn : 0 < n) (hc : 0 < c) :
    normalizeWeights (List.replicate n c) = List.replicate n (1 / (n : ℚ)) := by
  unfold normalizeWeights
  have hn2 : (0 : ℚ) < n := by exact_mod_cast hn
  have hsum : (List.replicate n c).sum = n * c := by
    simp [List.sum_replicate, nsmul_eq_mul]
  rw [hsum, if_pos (mul_pos hn2 hc), List.map_replicate]
  congr 1
  rw [div_eq_div_iff (ne_of_gt (mul_pos hn2 hc)) (ne_of_gt hn2)]
  ring

theorem normalizeBoundWeights_replicate {n : ℕ} {c : ℚ} (hn : 0 < n) (hc : 0 < c) :
    normalizeBoundWeights (List.replicate n c) = List.replicate n (1 / (n : ℚ)) := by
  rw [normalizeBoundWeights_eq_of_pos (by simp [List.replicate_eq_nil_iff]; omega)
    (fun w hw => by rw [List.eq_of_mem_replicate hw]; exact hc)]
  exact normalizeWeights_replicate hn hc

theorem normalizeWeights_nonneg {ws : List ℚ} (hpos : ∀ w ∈ ws, 0 < w) :
    ∀ w ∈ normalizeWeights ws, 0 ≤ w := by
  unfold normalizeWeights
  intro w hw
  split_ifs at hw with h
  · simp only [List.mem_map] at hw
    rcases hw with ⟨w2, hw2, h3⟩
    rw [← h3]
    exact le_of_lt (div_pos (hpos w2 hw2) h)
  · rw [List.eq_of_mem_replicate hw]
    exact one_div_nonneg.mpr (Nat.cast_nonneg _)

theorem qmean_neg_one_lt {l : List ℚ} (hne : l ≠ []) (h : ∀ x ∈ l, -1 < x) :
    -1 < qmean l := by
  have hlen : (0 : ℚ) < l.length := by
    have : l.length ≠ 0 := fun h2 => hne (List.eq_nil_of_length_eq_zero h2)
    exact_mod_cast Nat.pos_of_ne_zero this
  have hsum : -(l.length : ℚ) < l.sum := by
    clear hlen
    induction l with
    | nil => exact absurd rfl hne
    | cons x rest ih =>
      cases rest with
      | nil => simpa using h x (by simp)
      | cons y rest2 =>
        have h1 := h x (by simp)
        have h2 : -(((y :: rest2).length : ℚ)) < (y :: rest2).sum :=
          ih (by simp) (fun z hz => h z (by simp [List.mem_cons] at hz ⊢; tauto))
        simp only [List.sum_cons, List.length_cons] at h2 ⊢
        push_cast at h2 ⊢
        linarith
  unfold qmean
  rw [lt_div_iff hlen]
  linarith

theorem getLastD_mem {l : List ℚ} (hne : l ≠ []) (d : ℚ) : l.getLastD d ∈ l := by
  induction l with
  | nil => exact absurd rfl hne
  | cons x rest ih =>
    cases rest with
    | nil => simp [List.getLastD]
    | cons y rest2 =>
      have h2 := ih (by simp)
      rw [List.getLastD_cons]
      exact List.mem_cons_of_mem _ h2

theorem catboost_trend_fallback_nonneg {df : List Row} {days : ℕ} (hne : df ≠ [])
    (hpos : ∀ r ∈ df, 0 < r.price) :
    ∀ v ∈ catboost_trend_fallback df days, 0 ≤ v := by
  unfold catboost_trend_fallback
  intro v hv
  rw [List.mem_map] at hv
  obtain ⟨i, hi, hv⟩ := hv
  rw [List.mem_range] at hi
  have hdays : 0 < days := by omega
  have hdaysq : (0 : ℚ) < (days : ℚ) := by exact_mod_cast hdays
  have hpricesne : df.map (fun r => r.price) ≠ [] := by
    simpa [List.map_eq_nil_iff] using hne
  have hlast : 0 < (df.map (fun r => r.price)).getLastD 0 := by
    have hm := getLastD_mem hpricesne 0
    rw [List.mem_map] at hm
    obtain ⟨r, hr, h2⟩ := hm
    exact h2 ▸ hpos r hr
  set pct := ((df.map (fun r => r.price)).zip (df.map (fun r => r.price)).tail).map
    (fun p => (p.2 - p.1) / p.1) with hpct
  have htrend : -1 < (if pct.length = 0 then (0 : ℚ) else qmean pct) := by
    split_ifs with h0
    · norm_num
    · apply qmean_neg_one_lt
      · intro h2
        rw [h2] at h0
        simp at h0
      · intro x hx
        rw [hpct, List.mem_map] at hx
        obtain ⟨p, hp, h2⟩ := hx
        have hmem := List.of_mem_zip hp
        have ha : 0 < p.1 := by
          obtain ⟨r, hr, h3⟩ := List.mem_map.mp hmem.1
          exact h3 ▸ hpos r hr
        have hb : 0 < p.2 := by
          obtain ⟨r, hr, h3⟩ := List.mem_map.mp (List.mem_of_mem_tail hmem.2)
          exact h3 ▸ hpos r hr
        rw [← h2]
        have h4 : 0 < p.2 / p.1 := div_pos hb ha
        have h5 : (p.2 - p.1) / p.1 = p.2 / p.1 - 1 := by field_simp
        rw [h5]
        linarith
  set T := (if pct.length = 0 then (0 : ℚ) else qmean pct) with hT
  have hiq : (i : ℚ) + 1 ≤ (days : ℚ) := by exact_mod_cast hi
  have hfac : 0 ≤ 1 + T * ((i : ℚ) + 1) / (days : ℚ) := by
    rw [mul_div_assoc]
    have ht1 : 0 < ((i : ℚ) + 1) / (days : ℚ) := div_pos (by positivity) hdaysq
    have ht2 : ((i : ℚ) + 1) / (days : ℚ) ≤ 1 := by
      rw [div_le_one hdaysq]
      exact hiq
    rcases le_or_lt 0 T with hT0 | hT0
    · nlinarith
    · nlinarith
  rw [← hv]
  exact mul_nonneg (le_of_lt hlast) hfac

theorem getD_map_lt (f : ℚ → ℚ) {l : List ℚ} {i : ℕ} (h : i < l.length) :
    (l.map f).getD i 0 = f (l.getD i 0) := by
  rw [List.getD_eq_getElem?_getD, List.getD_eq_getElem?_getD, List.getElem?_map,
    List.getElem?_eq_getElem h]
  simp

theorem getD_range_map (f : ℕ → ℚ) {days i : ℕ} (h : i < days) :
    ((List.range days).map f).getD i 0 = f i := by
  rw [List.getD_eq_getElem?_getD, List.getElem?_map, List.getElem?_range h]
  simp

theorem getD_enum_map (g : ℕ × ℚ → ℚ) {l : List ℚ} {i : ℕ} (h : i < l.length) :
    (l.enum.map g).getD i 0 = g (i, l.getD i 0) := by
  rw [List.getD_eq_getElem?_getD, List.getElem?_map, List.getElem?_eq_getElem (by simpa using h)]
  simp only [Option.map_some', Option.getD_some, List.getElem_enum]
  rw [List.getD_eq_getElem l 0 h]

theorem GoodRes_noBounds {days : ℕ} {nm : String} {vals : List ℚ}
    (h : vals.length = days) :
    GoodRes days { values := vals, confidence_lower := none, confidence_upper := none
                 , model_name := nm } := by
  refine ⟨h, by simp, by simp, by simp, by simp⟩

theorem GoodRes_symmBounds {days : ℕ} {nm : String} {vals : List ℚ} {c : ℚ}
    (h : vals.length = days) (hc : 0 ≤ c) :
    GoodRes days { values := vals
                 , confidence_lower := some (vals.map (fun x => x - c))
                 , confidence_upper := some (vals.map (fun x => x + c))
                 , model_name := nm } := by
  refine ⟨h, by simp [h], by simp [h], by simp, ?_⟩
  intro lo hi hlo hhi i hi2
  simp only [Option.some.injEq] at hlo hhi
  subst hlo hhi
  have hilen : i < vals.length := h ▸ hi2
  rw [getD_map_lt _ hilen, getD_map_lt _ hilen]
  constructor <;> linarith

theorem GoodRes_clampBounds {days : ℕ} {nm : String} {vals : List ℚ} {sd : ℚ}
    (hlen : vals.length = days) (hsd : 0 ≤ sd) (hnn : ∀ v ∈ vals, 0 ≤ v) :
    GoodRes days
      { values := vals
      , confidence_lower := some (vals.enum.map (fun p => max 0 (p.2 - sd * (1 + (p.1 : ℚ) / 10))))
      , confidence_upper := some (vals.enum.map (fun p => p.2 + sd * (1 + (p.1 : ℚ) / 10)))
      , model_name := nm } := by
  refine ⟨hlen, by simp [hlen], by simp [hlen], by simp, ?_⟩
  intro lo hi hlo hhi i hi2
  simp only [Option.some.injEq] at hlo hhi
  subst hlo hhi
  have hilen : i < vals.length := hlen ▸ hi2
  rw [getD_enum_map _ hilen, getD_enum_map _ hilen]
  have hv : 0 ≤ vals.getD i 0 := by
    rw [List.getD_eq_getElem vals 0 hilen]
    exact hnn _ (List.getElem_mem hilen)
  have hw : 0 ≤ sd * (1 + (i : ℚ) / 10) := mul_nonneg hsd (by positivity)
  constructor
  · exact max_le hv (by linarith)
  · linarith

theorem sma_shape {B : Backends} {df : List Row} {days : ℕ} {inc : Bool} {r : ForecastResult}
    (hsd : ∀ q, 0 ≤ B.sqrtNN q)
    (h : generate_sma_forecast B df days inc = .ok r) :
    GoodRes days r ∧ (inc = true → r.confidence_lower.isSome) := by
  unfold generate_sma_forecast at h
  split_ifs at h with h1 h2
  · simp only [Except.ok.injEq] at h
    subst h
    exact ⟨GoodRes_symmBounds (by simp) (mul_nonneg (hsd _) (by norm_num)), fun _ => by simp⟩
  · simp only [Except.ok.injEq] at h
    subst h
    exact ⟨GoodRes_noBounds (by simp), fun hinc => absurd hinc h2⟩

theorem wma_shape {B : Backends} {df : List Row} {days : ℕ} {inc : Bool} {r : ForecastResult}
    (hsd : ∀ q, 0 ≤ B.sqrtNN q)
    (h : generate_wma_forecast B df days inc = .ok r) :
    GoodRes days r ∧ (inc = true → r.confidence_lower.isSome) := by
  unfold generate_wma_forecast at h
  split_ifs at h with h1 h2
  · simp only [Except.ok.injEq] at h
    subst h
    exact ⟨GoodRes_symmBounds (by simp) (mul_nonneg (hsd _) (by norm_num)), fun _ => by simp⟩
  · simp only [Except.ok.injEq] at h
    subst h
    exact ⟨GoodRes_noBounds (by simp), fun hinc => absurd hinc h2⟩

theorem es_shape {B : Backends} {df : List Row} {days : ℕ} {inc : Bool} {r : ForecastResult}
    (hsd : ∀ q, 0 ≤ B.sqrtNN q)
    (hes : ∀ df2 f ci, B.es df2 = some (f, some ci) → ∀ i, (ci i).1 ≤ f i ∧ f i ≤ (ci i).2)
    (hdl : days ≤ df.length)
    (h : generate_es_forecast B df days inc = .ok r) :
    GoodRes days r ∧ (inc = true → r.confidence_lower.isSome) := by
  unfold generate_es_forecast at h
  rcases hB : B.es df with _ | ⟨f, ciOpt⟩
  · rw [hB] at h
    split_ifs at h
  · rw [hB] at h
    cases ciOpt with
    | none =>
      split_ifs at h with h1 h2 h3
      · simp only [Except.ok.injEq] at h
        subst h
        exact ⟨GoodRes_symmBounds (by simp) (hsd _), fun _ => by simp⟩
      · simp only [Except.ok.injEq] at h
        subst h
        exact ⟨GoodRes_noBounds (by simp), fun hinc => absurd hinc h3⟩
    | some ci =>
      split_ifs at h with h1 h2 h3
      · simp only [Except.ok.injEq] at h
        subst h
        have hmin : min days df.length = days := Nat.min_eq_left hdl
        refine ⟨⟨by simp, by simp [hmin], by simp [hmin], by simp, ?_⟩, fun _ => by simp⟩
        intro lo hi hlo hhi i hi2
        simp only [hmin, Option.map_some', Option.some.injEq] at hlo hhi
        subst hlo hhi
        dsimp only
        rw [getD_range_map _ hi2, getD_range_map _ hi2, getD_range_map _ hi2]
        exact hes df f ci hB i
      · simp only [Except.ok.injEq] at h
        subst h
        exact ⟨GoodRes_noBounds (by simp), fun hinc => absurd hinc h3⟩

theorem arima_shape {B : Backends} {df : List Row} {days : ℕ} {inc : Bool} {r : ForecastResult}
    (hsd : ∀ q, 0 ≤ B.sqrtNN q)
    (har : ∀ df2 f ci, B.arima df2 = some (f, some ci) → ∀ i, (ci i).1 ≤ f i ∧ f i ≤ (ci i).2)
    (h : generate_arima_forecast B df days inc = .ok r) :
    GoodRes days r ∧ (inc = true → r.confidence_lower.isSome) := by
  unfold generate_arima_forecast at h
  rcases hB : B.arima df with _ | ⟨f, ciOpt⟩
  · rw [hB] at h
    split_ifs at h
  · rw [hB] at h
    cases ciOpt with
    | none =>
      split_ifs at h with h1 h2 h3
      · simp only [Except.ok.injEq] at h
        subst h
        exact ⟨GoodRes_symmBounds (by simp) (hsd _), fun _ => by simp⟩
      · simp only [Except.ok.injEq] at h
        subst h
        exact ⟨GoodRes_noBounds (by simp), fun hinc => absurd hinc h3⟩
    | some ci =>
      split_ifs at h with h1 h2 h3
      · simp only [Except.ok.injEq] at h
        subst h
        refine ⟨⟨by simp, by simp, by simp, by simp, ?_⟩, fun _ => by simp⟩
        intro lo hi hlo hhi i hi2
        simp only [Option.map_some', Option.some.injEq] at hlo hhi
        subst hlo hhi
        dsimp only
        rw [getD_range_map _ hi2, getD_range_map _ hi2, getD_range_map _ hi2]
        exact har df f ci hB i
      · simp only [Except.ok.injEq] at h
        subst h
        exact ⟨GoodRes_noBounds (by simp), fun hinc => absurd hinc h3⟩

theorem catboost_shape {B : Backends} {df : List Row} {days : ℕ} {inc : Bool}
    {r : ForecastResult} (hsd : ∀ q, 0 ≤ B.sqrtNN q)
    (hcat : ∀ m, B.catboostModel = some m → ∀ df2 i, 0 ≤ m df2 i)
    (hpos : ∀ rw ∈ df, 0 < rw.price)
    (h : generate_catboost_forecast B df days inc = .ok r) :
    GoodRes days r ∧ (inc = true → r.confidence_lower.isSome) := by
  unfold generate_catboost_forecast at h
  have hlen : (match B.catboostModel with
      | some m => predict_with_catboost m df days
      | none => catboost_trend_fallback df days).length = days := by
    rcases B.catboostModel with _ | m <;>
      simp [predict_with_catboost, catboost_trend_fallback]
  split_ifs at h with h1 h2 h3
  · simp only [Except.ok.injEq] at h
    subst h
    have hnn : ∀ v ∈ (match B.catboostModel with
        | some m => predict_with_catboost m df days
        | none => catboost_trend_fallback df days), 0 ≤ v := by
      rcases hm : B.catboostModel with _ | m
      · exact catboost_trend_fallback_nonneg
          (List.ne_nil_of_length_pos (by omega)) hpos
      · intro v hv
        simp only [predict_with_catboost, List.mem_map, List.mem_range] at hv
        obtain ⟨i, _, h4⟩ := hv
        exact h4 ▸ hcat m hm df i
    exact ⟨GoodRes_clampBounds hlen (hsd _) hnn, fun _ => by simp⟩
  · simp only [Except.ok.injEq] at h
    subst h
    exact ⟨GoodRes_noBounds hlen, fun hinc => absurd hinc h3⟩

theorem fallback_shape {B : Backends} (df : List Row) (days : ℕ)
    (hsd : ∀ q, 0 ≤ B.sqrtNN q) (hpos : ∀ rw ∈ df, 0 < rw.price) :
    GoodRes days (generate_fallback_forecast B df days) ∧
      (generate_fallback_forecast B df days).confidence_lower.isSome := by
  unfold generate_fallback_forecast
  have hc : 0 ≤ (if 1 < df.length then pdStd B (df.map (fun r => r.price))
      else qmean (df.map (fun r => r.price)) * (1 / 10)) * 2 := by
    apply mul_nonneg _ (by norm_num)
    split_ifs with h1
    · exact hsd _
    · apply mul_nonneg _ (by norm_num)
      unfold qmean
      apply div_nonneg _ (by positivity)
      apply List.sum_nonneg
      intro x hx
      obtain ⟨rw2, hrw, h3⟩ := List.mem_map.mp hx
      exact h3 ▸ le_of_lt (hpos rw2 hrw)
  exact ⟨GoodRes_symmBounds (by simp) hc, by simp⟩

theorem dispatch_shape {B : Backends} {name : String} {df : List Row} {days : ℕ}
    {inc : Bool} {r : ForecastResult} (hOK : OracleOK B)
    (hpos : ∀ rw ∈ df, 0 < rw.price) (hdl : days ≤ df.length)
    (h : dispatchModel B name df days inc = .ok r) :
    GoodRes days r ∧ (inc = true → r.confidence_lower.isSome) := by
  obtain ⟨hsd, hes, har, hcat⟩ := hOK
  unfold dispatchModel at h
  split_ifs at h
  · exact sma_shape hsd h
  · exact wma_shape hsd h
  · exact es_shape hsd hes hdl h
  · exact arima_shape hsd har h
  · exact catboost_shape hsd hcat hpos h

theorem dispatch_ok_length {B : Backends} {name : String} {df : List Row} {days : ℕ}
    {inc : Bool} {r : ForecastResult}
    (h : dispatchModel B name df days inc = .ok r) : r.values.length = days := by
  unfold dispatchModel at h
  split_ifs at h
  · unfold generate_sma_forecast at h
    split_ifs at h <;> (simp only [Except.ok.injEq] at h; subst h; simp)
  · unfold generate_wma_forecast at h
    split_ifs at h <;> (simp only [Except.ok.injEq] at h; subst h; simp)
  · unfold generate_es_forecast at h
    rcases hB : B.es df with _ | ⟨f, ciOpt⟩
    · rw [hB] at h
      split_ifs at h
    · rw [hB] at h
      split_ifs at h <;> (simp only [Except.ok.injEq] at h; subst h; simp)
  · unfold generate_arima_forecast at h
    rcases hB : B.arima df with _ | ⟨f, ciOpt⟩
    · rw [hB] at h
      split_ifs at h
    · rw [hB] at h
      split_ifs at h <;> (simp only [Except.ok.injEq] at h; subst h; simp)
  · unfold generate_catboost_forecast at h
    have hlen : (match B.catboostModel with
        | some m => predict_with_catboost m df days
        | none => catboost_trend_fallback df days).length = days := by
      rcases B.catboostModel with _ | m <;>
        simp [predict_with_catboost, catboost_trend_fallback]
    split_ifs at h <;> (simp only [Except.ok.injEq] at h; subst h; exact hlen)


theorem weightedSum_le_map {α : Type} {ws : List ℚ} (hw : ∀ w ∈ ws, 0 ≤ w) :
    ∀ {l : List α} {f g : α → ℚ}, (∀ a ∈ l, f a ≤ g a) →
    weightedSum ws (l.map f) ≤ weightedSum ws (l.map g) := by
  induction ws with
  | nil => intro l f g _; simp [weightedSum_nil_left]
  | cons w ws ih =>
    intro l f g hfg
    cases l with
    | nil => simp [weightedSum]
    | cons a l =>
      simp only [List.map_cons]
      rw [weightedSum_cons, weightedSum_cons]
      have h1 : f a ≤ g a := hfg a (by simp)
      have h2 : 0 ≤ w := hw w (by simp)
      have h3 : weightedSum ws (l.map f) ≤ weightedSum ws (l.map g) :=
        ih (fun w2 hw2 => hw w2 (by simp [hw2])) (fun a2 ha2 => hfg a2 (by simp [ha2]))
      nlinarith

theorem ensembleContributors_all {mr : List (String × ForecastResult)} {days : ℕ}
    (h : ∀ p ∈ mr, strLower p.1 ≠ "ensemble" ∧ days ≤ p.2.values.length) :
    ensembleContributors mr days = mr.map (fun p => (p.1, p.2.values.take days)) := by
  unfold ensembleContributors
  rw [List.filter_eq_self.mpr]
  intro p hp
  obtain ⟨h1, h2⟩ := h p hp
  simp [h1, h2]

theorem boundContributors_all {mr : List (String × ForecastResult)} {days : ℕ}
    (hdays : 1 ≤ days)
    (h : ∀ p ∈ mr, strLower p.1 ≠ "ensemble" ∧
      ∃ lo, p.2.confidence_lower = some lo ∧ days ≤ lo.length) :
    boundContributors mr days = mr.map (fun p =>
      (p.1, (((p.2.confidence_lower).getD []).take days,
             ((p.2.confidence_upper).getD []).take days))) := by
  unfold boundContributors
  rw [List.filter_eq_self.mpr]
  intro p hp
  obtain ⟨h1, lo, h2, h3⟩ := h p hp
  have h4 : ¬ lo.isEmpty := by
    rw [List.isEmpty_iff]
    intro h5
    rw [h5] at h3
    simp at h3
    omega
  simp [h1, h2, h3, h4]

theorem ensembleRawWeights_eq {S : EngineState} {mr : List (String × ForecastResult)}
    {days : ℕ} (hcv : ensembleContributors mr days = mr.map (fun p => (p.1, p.2.values.take days))) :
    ensembleRawWeights S mr days =
      mr.map (fun p => (dictGet p.1 S.model_weights).getD (1 / (mr.length : ℚ))) := by
  unfold ensembleRawWeights
  rw [hcv, List.map_map]
  rfl

theorem boundRawWeights_eq {S : EngineState} {mr : List (String × ForecastResult)}
    {days : ℕ} (hcb : boundContributors mr days = mr.map (fun p =>
      (p.1, (((p.2.confidence_lower).getD []).take days,
             ((p.2.confidence_upper).getD []).take days)))) :
    boundRawWeights S mr days = mr.map (fun p => (dictGet p.1 S.model_weights).getD 1) := by
  unfold boundRawWeights
  rw [hcb, List.map_map]
  rfl

theorem bound_weights_match {S : EngineState} {mr : List (String × ForecastResult)}
    {days : ℕ} (hne : mr ≠ [])
    (hcv : ensembleContributors mr days = mr.map (fun p => (p.1, p.2.values.take days)))
    (hcb : boundContributors mr days = mr.map (fun p =>
      (p.1, (((p.2.confidence_lower).getD []).take days,
             ((p.2.confidence_upper).getD []).take days))))
    (hw : (∀ p ∈ mr, ∃ w, dictGet p.1 S.model_weights = some w ∧ 0 < w) ∨
          (∀ p ∈ mr, dictGet p.1 S.model_weights = none)) :
    normalizeBoundWeights (boundRawWeights S mr days) = ensembleWeights S mr days := by
  have hL : 0 < mr.length := List.length_pos.mpr hne
  unfold ensembleWeights
  rw [ensembleRawWeights_eq hcv, boundRawWeights_eq hcb]
  rcases hw with hhit | hmiss
  · have h1 : mr.map (fun p => (dictGet p.1 S.model_weights).getD 1) =
        mr.map (fun p => (dictGet p.1 S.model_weights).getD (1 / (mr.length : ℚ))) := by
      apply List.map_congr_left
      intro p hp
      obtain ⟨w, hw1, _⟩ := hhit p hp
      rw [hw1]
      rfl
    rw [h1]
    apply normalizeBoundWeights_eq_of_pos
    · simpa [List.map_eq_nil_iff] using hne
    · intro w hw2
      obtain ⟨p, hp, h2⟩ := List.mem_map.mp hw2
      obtain ⟨w2, hw3, hw4⟩ := hhit p hp
      rw [hw3] at h2
      simp only [Option.getD_some] at h2
      exact h2 ▸ hw4
  · have h1 : mr.map (fun p => (dictGet p.1 S.model_weights).getD 1) =
        List.replicate mr.length 1 := by
      rw [show (List.replicate mr.length (1 : ℚ)) = mr.map (fun _ => 1) by
        rw [List.map_const']]
      apply List.map_congr_left
      intro p hp
      rw [hmiss p hp]
      rfl
    have h2 : mr.map (fun p => (dictGet p.1 S.model_weights).getD (1 / (mr.length : ℚ))) =
        List.replicate mr.length (1 / (mr.length : ℚ)) := by
      rw [show (List.replicate mr.length (1 / (mr.length : ℚ))) =
        mr.map (fun _ => 1 / (mr.length : ℚ)) by rw [List.map_const']]
      apply List.map_congr_left
      intro p hp
      rw [hmiss p hp]
      rfl
    rw [h1, h2]
    rw [normalizeBoundWeights_replicate hL (by norm_num),
      normalizeWeights_replicate hL (by positivity)]

theorem ensembleWeights_nonneg {S : EngineState} {mr : List (String × ForecastResult)}
    {days : ℕ} (hne : mr ≠ [])
    (hcv : ensembleContributors mr days = mr.map (fun p => (p.1, p.2.values.take days)))
    (hw : (∀ p ∈ mr, ∃ w, dictGet p.1 S.model_weights = some w ∧ 0 < w) ∨
          (∀ p ∈ mr, dictGet p.1 S.model_weights = none)) :
    ∀ w ∈ ensembleWeights S mr days, 0 ≤ w := by
  have hL : 0 < mr.length := List.length_pos.mpr hne
  unfold ensembleWeights
  apply normalizeWeights_nonneg
  rw [ensembleRawWeights_eq hcv]
  intro w hw2
  obtain ⟨p, hp, h2⟩ := List.mem_map.mp hw2
  rcases hw with hhit | hmiss
  · obtain ⟨w2, hw3, hw4⟩ := hhit p hp
    rw [hw3] at h2
    simp only [Option.getD_some] at h2
    exact h2 ▸ hw4
  · rw [hmiss p hp] at h2
    simp only [Option.getD_none] at h2
    rw [← h2]
    positivity


theorem ensemble_ok_eq {B : Backends} {S : EngineState} {mr : List (String × ForecastResult)}
    {days : ℕ} {inc : Bool} (hne : mr ≠ []) (hcsne : ensembleContributors mr days ≠ []) :
    generate_weighted_ensemble_forecast B S mr days inc = .ok
      { values := ensembleValues S mr days
      , confidence_lower := (if inc then some (calculate_weighted_ensemble_confidence B S mr
          (ensembleValues S mr days) days) else none).map (fun p => p.1)
      , confidence_upper := (if inc then some (calculate_weighted_ensemble_confidence B S mr
          (ensembleValues S mr days) days) else none).map (fun p => p.2)
      , model_name := "Ensemble" } := by
  unfold generate_weighted_ensemble_forecast
  rw [if_neg (by simpa [List.isEmpty_iff] using hne),
      if_neg (by simpa [List.isEmpty_iff] using hcsne)]

theorem ensemble_conf_eq {B : Backends} {S : EngineState} {mr : List (String × ForecastResult)}
    {days : ℕ} {vals : List ℚ} (hne : mr ≠ [])
    (hcb : boundContributors mr days = mr.map (fun p =>
      (p.1, (((p.2.confidence_lower).getD []).take days,
             ((p.2.confidence_upper).getD []).take days)))) :
    calculate_weighted_ensemble_confidence B S mr vals days =
      ((List.range days).map (fun i =>
         weightedSum (normalizeBoundWeights (boundRawWeights S mr days))
           ((boundContributors mr days).map (fun p => p.2.1.getD i 0))),
       (List.range days).map (fun i =>
         weightedSum (normalizeBoundWeights (boundRawWeights S mr days))
           ((boundContributors mr days).map (fun p => p.2.2.getD i 0)))) := by
  unfold calculate_weighted_ensemble_confidence
  rw [if_neg]
  rw [List.isEmpty_iff, hcb]
  simpa [List.map_eq_nil_iff] using hne

theorem ensemble_good {B : Backends} {S : EngineState} {mr : List (String × ForecastResult)}
    {days : ℕ} {inc : Bool} (hne : mr ≠ []) (hdays : 1 ≤ days)
    (hmr : ∀ p ∈ mr, strLower p.1 ≠ "ensemble" ∧ GoodRes days p.2 ∧
      (inc = true → p.2.confidence_lower.isSome))
    (hw : (∀ p ∈ mr, ∃ w, dictGet p.1 S.model_weights = some w ∧ 0 < w) ∨
          (∀ p ∈ mr, dictGet p.1 S.model_weights = none)) :
    ∃ er, generate_weighted_ensemble_forecast B S mr days inc = .ok er ∧
      GoodRes days er ∧ er.model_name = "Ensemble" := by
  have hcv := @ensembleContributors_all mr days
    (fun p hp => ⟨(hmr p hp).1, le_of_eq ((hmr p hp).2.1).1.symm⟩)
  have hcsne : ensembleContributors mr days ≠ [] := by
    rw [hcv]
    simpa [List.map_eq_nil_iff] using hne
  have hvlen : (ensembleValues S mr days).length = days := by simp [ensembleValues]
  refine ⟨_, ensemble_ok_eq hne hcsne, ?_, rfl⟩
  cases inc with
  | false => exact ⟨hvlen, by simp, by simp, by simp, by simp⟩
  | true =>
    have hexists : ∀ p ∈ mr, ∃ lo, p.2.confidence_lower = some lo ∧ days ≤ lo.length := by
      intro p hp
      obtain ⟨-, hg, hs⟩ := hmr p hp
      obtain ⟨lo, hlo⟩ := Option.isSome_iff_exists.mp (hs rfl)
      exact ⟨lo, hlo, le_of_eq (hg.2.1 lo hlo).symm⟩
    have hcb := boundContributors_all hdays (fun p hp => ⟨(hmr p hp).1, hexists p hp⟩)
    have hbeq := bound_weights_match hne hcv hcb hw
    have hnn := ensembleWeights_nonneg hne hcv hw
    have hconf := @ensemble_conf_eq B S mr days (ensembleValues S mr days) hne hcb
    refine ⟨hvlen, ?_, ?_, by simp, ?_⟩
    · intro lo hlo
      simp only [if_true, Option.map_some', Option.some.injEq] at hlo
      rw [← hlo, hconf]
      simp
    · intro hi hhi
      simp only [if_true, Option.map_some', Option.some.injEq] at hhi
      rw [← hhi, hconf]
      simp
    · intro lo hi hlo hhi i hi2
      simp only [if_true, Option.map_some', Option.some.injEq] at hlo hhi
      subst hlo hhi
      rw [hconf]
      dsimp only
      rw [getD_range_map _ hi2, getD_range_map _ hi2]
      have hvi : (ensembleValues S mr days).getD i 0 =
          weightedSum (ensembleWeights S mr days)
            ((ensembleContributors mr days).map (fun p => p.2.getD i 0)) := by
        unfold ensembleValues
        rw [getD_range_map _ hi2]
      rw [hvi, hbeq, hcv, hcb, List.map_map, List.map_map, List.map_map]
      have hlow : weightedSum (ensembleWeights S mr days)
          (mr.map ((fun (p : String × (List ℚ × List ℚ)) => p.2.1.getD i 0) ∘
            (fun p => (p.1, (((p.2.confidence_lower).getD []).take days,
              ((p.2.confidence_upper).getD []).take days))))) ≤
          weightedSum (ensembleWeights S mr days)
          (mr.map ((fun (p : String × List ℚ) => p.2.getD i 0) ∘
            (fun p => (p.1, p.2.values.take days)))) := by
        apply weightedSum_le_map hnn
        intro p hp
        simp only [Function.comp]
        obtain ⟨lo2, hlo2, hlen2⟩ := hexists p hp
        obtain ⟨-, hg, hs⟩ := hmr p hp
        obtain ⟨hi3, hhi3⟩ := Option.isSome_iff_exists.mp (hg.2.2.2.1 (by rw [hlo2]; rfl))
        rw [hlo2]
        simp only [Option.getD_some]
        rw [getD_take hi2, getD_take hi2]
        exact (hg.2.2.2.2 lo2 hi3 hlo2 hhi3 i hi2).1
      have hhigh : weightedSum (ensembleWeights S mr days)
          (mr.map ((fun (p : String × List ℚ) => p.2.getD i 0) ∘
            (fun p => (p.1, p.2.values.take days)))) ≤
          weightedSum (ensembleWeights S mr days)
          (mr.map ((fun (p : String × (List ℚ × List ℚ)) => p.2.2.getD i 0) ∘
            (fun p => (p.1, (((p.2.confidence_lower).getD []).take days,
              ((p.2.confidence_upper).getD []).take days))))) := by
        apply weightedSum_le_map hnn
        intro p hp
        simp only [Function.comp]
        obtain ⟨lo2, hlo2, hlen2⟩ := hexists p hp
        obtain ⟨-, hg, hs⟩ := hmr p hp
        obtain ⟨hi3, hhi3⟩ := Option.isSome_iff_exists.mp (hg.2.2.2.1 (by rw [hlo2]; rfl))
        rw [hhi3]
        simp only [Option.getD_some]
        rw [getD_take hi2, getD_take hi2]
        exact (hg.2.2.2.2 lo2 hi3 hlo2 hhi3 i hi2).2
      exact ⟨hlow, hhigh⟩


theorem specUnnormalizedWeight_pos (o : Option Metrics) : 0 < specUnnormalizedWeight o := by
  unfold specUnnormalizedWeight
  rcases o with _ | met
  · norm_num
  · rcases hm : met.mae with _ | m
    · simp only [hm]
      norm_num
    · simp only [hm]
      split_ifs with h
      · positivity
      · norm_num

theorem metricsLoopStep_weight_other {B : Backends} {train : List Row} {y_true y_train : List ℚ}
    {fd : ℕ} {acc : EngineState} {name k : String} (hk : k ≠ name) :
    dictGet k (metricsLoopStep B train y_true y_train fd acc name).model_weights =
      dictGet k acc.model_weights := by
  unfold metricsLoopStep
  rcases hd : dispatchModel B name train fd false with e | r
  · dsimp only
    split_ifs <;> first | rfl | exact dictGet_insert_ne hk 1 _
  · dsimp only
    rcases hm : (calculate_all_metrics B y_true (r.values.take y_true.length)
      (some y_train)).mae with _ | m
    · dsimp only
      split_ifs <;> first | rfl | exact dictGet_insert_ne hk 1 _
    · dsimp only
      split_ifs <;> first | rfl | exact dictGet_insert_ne hk _ _

theorem metricsLoopStep_weight_self {B : Backends} {train : List Row} {y_true y_train : List ℚ}
    {fd : ℕ} {acc : EngineState} {name : String}
    (hens : ¬ strLower name = "ensemble") (hmeth : hasForecastMethod name = true)
    (hval : ∀ r2, dispatchModel B name train fd false = .ok r2 → ¬ r2.values.isEmpty = true) :
    dictGet name (metricsLoopStep B train y_true y_train fd acc name).model_weights =
      some (specUnnormalizedWeight (backtestOutcome B train y_true y_train fd name)) := by
  unfold metricsLoopStep backtestOutcome
  have hens2 : ¬ ((strLower name == "ensemble") = true) := by simpa using hens
  have hmeth2 : ¬ (¬ hasForecastMethod name = true) := by simpa using hmeth
  rw [if_neg hens2, if_neg hmeth2]
  rcases hd : dispatchModel B name train fd false with e | r
  · dsimp only [specUnnormalizedWeight]
    rw [dictGet_insert_self]
  · have hemp : ¬ (r.values.isEmpty = true) := hval r hd
    dsimp only
    rw [if_neg hemp]
    rcases hm : (calculate_all_metrics B y_true (r.values.take y_true.length)
      (some y_train)).mae with _ | m
    · simp only [specUnnormalizedWeight, if_neg hemp, hm]
      rw [dictGet_insert_self]
    · simp only [specUnnormalizedWeight, if_neg hemp, hm]
      split_ifs with h1 <;> (dsimp only; rw [dictGet_insert_self])

theorem metricsLoopStep_pos {B : Backends} {train : List Row} {y_true y_train : List ℚ}
    {fd : ℕ} {acc : EngineState} {name : String}
    (hacc : ∀ w ∈ dictValues acc.model_weights, 0 < w) :
    ∀ w ∈ dictValues (metricsLoopStep B train y_true y_train fd acc name).model_weights,
      0 < w := by
  unfold metricsLoopStep
  rcases hd : dispatchModel B name train fd false with e | r
  · dsimp only
    split_ifs <;>
      first
        | exact hacc
        | (intro w hw
           rcases mem_dictValues_insert hw with h2 | h2
           · rw [h2]; norm_num
           · exact hacc w h2)
  · dsimp only
    rcases hm : (calculate_all_metrics B y_true (r.values.take y_true.length)
      (some y_train)).mae with _ | m
    · dsimp only
      split_ifs <;>
        first
          | exact hacc
          | (intro w hw
             rcases mem_dictValues_insert hw with h2 | h2
             · rw [h2]; norm_num
             · exact hacc w h2)
    · dsimp only
      split_ifs with h1 h2 h3 <;>
        first
          | exact hacc
          | (intro w hw
             rcases mem_dictValues_insert hw with h2 | h2
             · rw [h2]; first | positivity | norm_num
             · exact hacc w h2)

theorem metricsLoop_fold_other {B : Backends} {train : List Row} {y_true y_train : List ℚ}
    {fd : ℕ} :
    ∀ (models : List String) (acc : EngineState) (k : String), k ∉ models →
      dictGet k (models.foldl (metricsLoopStep B train y_true y_train fd) acc).model_weights =
        dictGet k acc.model_weights := by
  intro models
  induction models with
  | nil => intro acc k _; rfl
  | cons a rest ih =>
    intro acc k hk
    rw [List.foldl_cons]
    rw [ih _ k (fun h => hk (List.mem_cons_of_mem _ h))]
    exact metricsLoopStep_weight_other (fun h => hk (h ▸ List.mem_cons_self _ _))

theorem metricsLoop_fold_weight {B : Backends} {train : List Row} {y_true y_train : List ℚ}
    {fd : ℕ}
    (hval : ∀ name r2, dispatchModel B name train fd false = .ok r2 → ¬ r2.values.isEmpty = true) :
    ∀ (models : List String) (acc : EngineState) (m : String), m ∈ models →
      ¬ strLower m = "ensemble" → hasForecastMethod m = true →
      dictGet m (models.foldl (metricsLoopStep B train y_true y_train fd) acc).model_weights =
        some (specUnnormalizedWeight (backtestOutcome B train y_true y_train fd m)) := by
  intro models
  induction models with
  | nil => intro acc m hm; simp at hm
  | cons a rest ih =>
    intro acc m hm hens hmeth
    rw [List.foldl_cons]
    rcases List.mem_cons.mp hm with h1 | h1
    · subst h1
      by_cases h2 : m ∈ rest
      · exact ih _ m h2 hens hmeth
      · rw [metricsLoop_fold_other rest _ m h2]
        exact metricsLoopStep_weight_self hens hmeth (hval m)
    · exact ih _ m h1 hens hmeth

theorem metricsLoop_fold_pos {B : Backends} {train : List Row} {y_true y_train : List ℚ}
    {fd : ℕ} :
    ∀ (models : List String) (acc : EngineState),
      (∀ w ∈ dictValues acc.model_weights, 0 < w) →
      ∀ w ∈ dictValues (models.foldl (metricsLoopStep B train y_true y_train fd) acc).model_weights,
        0 < w := by
  intro models
  induction models with
  | nil => intro acc hacc; exact hacc
  | cons a rest ih =>
    intro acc hacc
    rw [List.foldl_cons]
    exact ih _ (metricsLoopStep_pos hacc)


theorem sum_map_div (l : List ℚ) (t : ℚ) : (l.map (fun x => x / t)).sum = l.sum / t := by
  induction l with
  | nil => simp
  | cons x rest ih => simp [ih, add_div]

theorem dictValues_map_div (d : List (String × ℚ)) (t : ℚ) :
    dictValues (d.map (fun p => (p.1, p.2 / t))) = (dictValues d).map (fun x => x / t) := by
  induction d with
  | nil => rfl
  | cons p rest ih => simp [dictValues, ih]

theorem dictGet_map_div (k : String) (d : List (String × ℚ)) (t : ℚ) :
    dictGet k (d.map (fun p => (p.1, p.2 / t))) = (dictGet k d).map (fun x => x / t) := by
  induction d with
  | nil => simp [dictGet]
  | cons p rest ih =>
    by_cases h : p.1 = k
    · simp [dictGet, h]
    · simp [dictGet, h, ih]

theorem metricsLoopStep_skip {B : Backends} {train : List Row} {y_true y_train : List ℚ}
    {fd : ℕ} {acc : EngineState} {name : String}
    (h : (strLower name == "ensemble") = true ∨ hasForecastMethod name = false) :
    metricsLoopStep B train y_true y_train fd acc name = acc := by
  unfold metricsLoopStep
  by_cases h1 : (strLower name == "ensemble") = true
  · rw [if_pos h1]
  · rcases h with h | h
    · exact absurd h h1
    · rw [if_neg h1, if_pos (by simp [h])]

theorem metricsLoop_fold_skip {B : Backends} {train : List Row} {y_true y_train : List ℚ}
    {fd : ℕ} :
    ∀ (models : List String) (acc : EngineState),
      (∀ m ∈ models, (strLower m == "ensemble") = true ∨ hasForecastMethod m = false) →
      models.foldl (metricsLoopStep B train y_true y_train fd) acc = acc := by
  intro models
  induction models with
  | nil => intro acc _; rfl
  | cons a rest ih =>
    intro acc hall
    rw [List.foldl_cons, metricsLoopStep_skip (hall a (by simp))]
    exact ih acc (fun m hm => hall m (by simp [hm]))

theorem metricsLoopState_skip {B : Backends} {S : EngineState} {df : List Row} {fd : ℕ}
    {models : List String}
    (hall : ∀ m ∈ models, (strLower m == "ensemble") = true ∨ hasForecastMethod m = false) :
    metricsLoopState B S df fd models = S := by
  unfold metricsLoopState
  exact metricsLoop_fold_skip models S hall

theorem calculate_model_metrics_skip {B : Backends} {df : List Row} {fd : ℕ}
    {models : List String}
    (hall : ∀ m ∈ models, (strLower m == "ensemble") = true ∨ hasForecastMethod m = false) :
    calculate_model_metrics B emptyState df fd models = emptyState := by
  unfold calculate_model_metrics
  rw [metricsLoopState_skip hall]
  simp [emptyState, dictValues]

theorem calculate_model_metrics_spec {B : Backends} {df : List Row} {fd : ℕ}
    {models : List String} (hfd : 1 ≤ fd) (hlen : fd + 10 < df.length)
    (hex : ∃ m ∈ models, ¬ strLower m = "ensemble" ∧ hasForecastMethod m = true) :
    ((dictValues (calculate_model_metrics B emptyState df fd models).model_weights).sum = 1) ∧
    (∀ w ∈ dictValues (calculate_model_metrics B emptyState df fd models).model_weights,
      0 < w) ∧
    (∀ m ∈ models, ¬ strLower m = "ensemble" → hasForecastMethod m = true →
      ∃ w, dictGet m (calculate_model_metrics B emptyState df fd models).model_weights =
          some w ∧ 0 < w ∧
        w * (dictValues (metricsLoopState B emptyState df fd models).model_weights).sum =
          specUnnormalizedWeight (backtestOutcome B (df.take (df.length - fd))
            ((df.drop (df.length - fd)).map (fun r => r.price))
            ((df.take (df.length - fd)).map (fun r => r.price)) fd m)) := by
  have htr : (df.take (df.length - fd)).length = df.length - fd := by
    rw [List.length_take]
    omega
  have hguard : ¬ (df.take (df.length - fd)).length < 10 := by
    rw [htr]
    omega
  have hval : ∀ name r2, dispatchModel B name (df.take (df.length - fd)) fd false = .ok r2 →
      ¬ r2.values.isEmpty = true := by
    intro name r2 h2
    have h3 := dispatch_ok_length h2
    rw [List.isEmpty_iff]
    intro h4
    rw [h4] at h3
    simp at h3
    omega
  have hW : ∀ m ∈ models, ¬ strLower m = "ensemble" → hasForecastMethod m = true →
      dictGet m (metricsLoopState B emptyState df fd models).model_weights =
        some (specUnnormalizedWeight (backtestOutcome B (df.take (df.length - fd))
          ((df.drop (df.length - fd)).map (fun r => r.price))
          ((df.take (df.length - fd)).map (fun r => r.price)) fd m)) := by
    intro m hm h1 h2
    unfold metricsLoopState
    exact metricsLoop_fold_weight hval models emptyState m hm h1 h2
  have hpos : ∀ w ∈ dictValues (metricsLoopState B emptyState df fd models).model_weights,
      0 < w := by
    unfold metricsLoopState
    exact metricsLoop_fold_pos models emptyState (by simp [emptyState, dictValues])
  obtain ⟨m0, hm0, hm1, hm2⟩ := hex
  have hWne : (metricsLoopState B emptyState df fd models).model_weights ≠ [] := by
    intro h2
    have h3 := hW m0 hm0 hm1 hm2
    rw [h2] at h3
    simp [dictGet] at h3
  have htot : 0 < (dictValues (metricsLoopState B emptyState df fd models).model_weights).sum := by
    apply sum_pos_of_forall_pos _ hpos
    simpa [dictValues, List.map_eq_nil_iff] using hWne
  have hS2 : calculate_model_metrics B emptyState df fd models =
      { model_metrics := (metricsLoopState B emptyState df fd models).model_metrics
      , model_weights := (metricsLoopState B emptyState df fd models).model_weights.map
          (fun p => (p.1, p.2 /
            (dictValues (metricsLoopState B emptyState df fd models).model_weights).sum)) } := by
    unfold calculate_model_metrics
    rw [if_neg hguard, if_pos htot]
  rw [hS2]
  refine ⟨?_, ?_, ?_⟩
  · dsimp only
    rw [dictValues_map_div, sum_map_div]
    exact div_self (ne_of_gt htot)
  · dsimp only
    rw [dictValues_map_div]
    intro w hw
    obtain ⟨w2, hw2, h3⟩ := List.mem_map.mp hw
    rw [← h3]
    exact div_pos (hpos w2 hw2) htot
  · intro m hm h1 h2
    dsimp only
    rw [dictGet_map_div, hW m hm h1 h2]
    refine ⟨_, rfl, ?_, ?_⟩
    · exact div_pos (specUnnormalizedWeight_pos _) htot
    · exact div_mul_cancel₀ _ (ne_of_gt htot)

theorem stateAfterMetrics_empty_facts {B : Backends} {adjusted : List Row} {days : ℕ}
    {models : List String} {calcM : Bool} (hdays : 1 ≤ days) :
    ((∀ m ∈ models, ¬ strLower m = "ensemble" → hasForecastMethod m = true →
       ∃ w, dictGet m (stateAfterMetrics B emptyState adjusted days models calcM).model_weights =
         some w ∧ 0 < w) ∧
     (∀ w ∈ dictValues
        (stateAfterMetrics B emptyState adjusted days models calcM).model_weights, 0 < w)) ∨
    (stateAfterMetrics B emptyState adjusted days models calcM).model_weights = [] := by
  unfold stateAfterMetrics
  split_ifs with hc
  · by_cases hex : ∃ m ∈ models, ¬ strLower m = "ensemble" ∧ hasForecastMethod m = true
    · left
      have hlen : days + 10 < adjusted.length := by
        have := (Bool.and_eq_true _ _).mp hc
        exact of_decide_eq_true this.2
      have hspec := calculate_model_metrics_spec (B := B) hdays hlen hex
      exact ⟨fun m hm h1 h2 => by
        obtain ⟨w, hw1, hw2, -⟩ := hspec.2.2 m hm h1 h2
        exact ⟨w, hw1, hw2⟩, hspec.2.1⟩
    · right
      push_neg at hex
      have hall : ∀ m ∈ models, (strLower m == "ensemble") = true ∨
          hasForecastMethod m = false := by
        intro m hm
        by_cases h1 : strLower m = "ensemble"
        · left
          simpa using h1
        · right
          by_cases h2 : hasForecastMethod m = true
          · exact absurd h2 (hex m hm h1)
          · simpa using h2
      rw [calculate_model_metrics_skip hall]
      rfl
  · right
    rfl


theorem mem_dictInsert {α : Type} {k : String} {v : α} :
    ∀ {d : List (String × α)} {p : String × α}, p ∈ dictInsert k v d → p = (k, v) ∨ p ∈ d := by
  intro d
  induction d with
  | nil =>
    intro p h
    simp [dictInsert] at h
    left
    exact h
  | cons q rest ih =>
    intro p h
    obtain ⟨k2, v2⟩ := q
    unfold dictInsert at h
    split_ifs at h with h1
    · rcases List.mem_cons.mp h with h2 | h2
      · left
        exact h2
      · right
        exact List.mem_cons_of_mem _ h2
    · rcases List.mem_cons.mp h with h2 | h2
      · right
        exact h2 ▸ List.mem_cons_self _ _
      · rcases ih h2 with h3 | h3
        · left
          exact h3
        · right
          exact List.mem_cons_of_mem _ h3

theorem mem_dictKeys {α : Type} {k : String} {d : List (String × α)} :
    k ∈ dictKeys d ↔ ∃ v, (k, v) ∈ d := by
  unfold dictKeys
  rw [List.mem_map]
  constructor
  · rintro ⟨p, hp, rfl⟩
    exact ⟨p.2, hp⟩
  · rintro ⟨v, hv⟩
    exact ⟨(k, v), hv, rfl⟩

theorem dictGet_mem_values {α : Type} {k : String} {v : α} {d : List (String × α)}
    (h : dictGet k d = some v) : v ∈ dictValues d :=
  List.mem_map.mpr ⟨(k, v), mem_of_dictGet h, rfl⟩

theorem scenario_multiplier_pos (scenario : String) : 0 < scenario_multiplier scenario := by
  unfold scenario_multiplier
  split_ifs <;> norm_num

theorem apply_scenario_adjustment_length (df : List Row) (m : ℚ) :
    (apply_scenario_adjustment df m).length = df.length := by
  unfold apply_scenario_adjustment
  simp

theorem apply_scenario_adjustment_pos {df : List Row} {m : ℚ} (hm : 0 < m)
    (hpos : ∀ r ∈ df, 0 < r.price) :
    ∀ r ∈ apply_scenario_adjustment df m, 0 < r.price := by
  intro r hr
  unfold apply_scenario_adjustment at hr
  rw [List.mem_map] at hr
  obtain ⟨r2, hr2, h2⟩ := hr
  rw [← h2]
  exact mul_pos (hpos r2 hr2) hm

theorem dispatchedResults_mem {B : Backends} {df : List Row} {days : ℕ}
    {models : List String} {inc : Bool} :
    ∀ p ∈ dispatchedResults B df days models inc,
      p.1 ∈ models ∧ ¬ strLower p.1 = "ensemble" ∧ hasForecastMethod p.1 = true ∧
      dispatchModel B p.1 df days inc = .ok p.2 := by
  have haux : ∀ (l : List String) (acc : List (String × ForecastResult)),
      (∀ n ∈ l, n ∈ models ∧ ¬ strLower n = "ensemble" ∧ hasForecastMethod n = true) →
      (∀ p ∈ acc, p.1 ∈ models ∧ ¬ strLower p.1 = "ensemble" ∧ hasForecastMethod p.1 = true ∧
        dispatchModel B p.1 df days inc = .ok p.2) →
      ∀ p ∈ l.foldl (fun acc2 name =>
          match dispatchModel B name df days inc with
          | .error _ => acc2
          | .ok r => if r.values.isEmpty then acc2 else dictInsert name r acc2) acc,
        p.1 ∈ models ∧ ¬ strLower p.1 = "ensemble" ∧ hasForecastMethod p.1 = true ∧
        dispatchModel B p.1 df days inc = .ok p.2 := by
    intro l
    induction l with
    | nil =>
      intro acc _ hacc p hp
      exact hacc p hp
    | cons a rest ih =>
      intro acc hl hacc p hp
      rw [List.foldl_cons] at hp
      refine ih _ (fun n hn => hl n (by simp [hn])) ?_ p hp
      intro q hq
      rcases hd : dispatchModel B a df days inc with e | r
      · rw [hd] at hq
        exact hacc q hq
      · rw [hd] at hq
        by_cases he : r.values.isEmpty
        · have hq2 : q ∈ acc := by
            have hq3 : q ∈ (if r.values.isEmpty then acc else dictInsert a r acc) := hq
            rwa [if_pos he] at hq3
          exact hacc q hq2
        · have hq2 : q ∈ dictInsert a r acc := by
            have hq3 : q ∈ (if r.values.isEmpty then acc else dictInsert a r acc) := hq
            rwa [if_neg he] at hq3
          rcases mem_dictInsert hq2 with h1 | h1
          · obtain ⟨ha1, ha2, ha3⟩ := hl a (by simp)
            subst h1
            exact ⟨ha1, ha2, ha3, hd⟩
          · exact hacc q h1
  intro p hp
  unfold dispatchedResults at hp
  refine haux _ [] ?_ (by simp) p hp
  intro n hn
  rw [List.mem_filter] at hn
  have h2 := hn.2
  simp only [Bool.and_eq_true, bne_iff_ne, ne_eq] at h2
  exact ⟨hn.1, h2.1, h2.2⟩

theorem resultsBeforeEnsemble_mem {B : Backends} {adjusted : List Row} {days : ℕ}
    {models : List String} {inc : Bool} :
    ∀ p ∈ resultsBeforeEnsemble B adjusted days models inc,
      p = ("Fallback", generate_fallback_forecast B adjusted days) ∨
      p ∈ dispatchedResults B adjusted days models inc := by
  intro p hp
  unfold resultsBeforeEnsemble at hp
  split_ifs at hp with he
  · unfold handle_fallback_forecast at hp
    left
    exact List.mem_singleton.mp hp
  · right
    exact hp

theorem resultsBeforeEnsemble_ne_nil {B : Backends} {adjusted : List Row} {days : ℕ}
    {models : List String} {inc : Bool} :
    resultsBeforeEnsemble B adjusted days models inc ≠ [] := by
  unfold resultsBeforeEnsemble
  split_ifs with he
  · unfold handle_fallback_forecast
    simp
  · simpa [List.isEmpty_iff] using he

theorem finalResults_eq (B : Backends) (S2 : EngineState) (adjusted : List Row) (days : ℕ)
    (models : List String) (inc : Bool) :
    finalResults B S2 adjusted days models inc =
      (if should_generate_ensemble models then
        (generate_weighted_ensemble_forecast B S2
          (resultsBeforeEnsemble B adjusted days models inc) days inc).map
          (fun er => dictInsert ("Ensemble") er (resultsBeforeEnsemble B adjusted days models inc))
      else .ok (resultsBeforeEnsemble B adjusted days models inc)) := rfl

theorem ensemble_ok_length {B : Backends} {S : EngineState}
    {mr : List (String × ForecastResult)} {days : ℕ} {inc : Bool} {er : ForecastResult}
    (h : generate_weighted_ensemble_forecast B S mr days inc = .ok er) :
    er.values.length = days ∧ er.model_name = "Ensemble" := by
  unfold generate_weighted_ensemble_forecast at h
  split_ifs at h <;>
    (simp only [Except.ok.injEq] at h; subst h; exact ⟨by simp [ensembleValues], rfl⟩)

theorem finalResults_ok_cases {B : Backends} {S2 : EngineState} {adjusted : List Row}
    {days : ℕ} {models : List String} {inc : Bool} {mr2 : List (String × ForecastResult)}
    (h : finalResults B S2 adjusted days models inc = .ok mr2) :
    (should_generate_ensemble models = true ∧
      ∃ er, generate_weighted_ensemble_forecast B S2
          (resultsBeforeEnsemble B adjusted days models inc) days inc = .ok er ∧
        mr2 = dictInsert ("Ensemble") er (resultsBeforeEnsemble B adjusted days models inc)) ∨
    (should_generate_ensemble models = false ∧
      mr2 = resultsBeforeEnsemble B adjusted days models inc) := by
  rw [finalResults_eq] at h
  split_ifs at h with hens
  · left
    refine ⟨hens, ?_⟩
    rcases hE : generate_weighted_ensemble_forecast B S2
        (resultsBeforeEnsemble B adjusted days models inc) days inc with e | er
    · rw [hE] at h
      simp [Except.map] at h
    · rw [hE] at h
      simp only [Except.map, Except.ok.injEq] at h
      exact ⟨er, rfl, h.symm⟩
  · right
    simp only [Except.ok.injEq] at h
    exact ⟨by simpa using hens, h.symm⟩

theorem finalResults_mem_length {B : Backends} {S2 : EngineState} {adjusted : List Row}
    {days : ℕ} {models : List String} {inc : Bool} {mr2 : List (String × ForecastResult)}
    (h : finalResults B S2 adjusted days models inc = .ok mr2) :
    mr2 ≠ [] ∧ ∀ p ∈ mr2, p.2.values.length = days := by
  have hm1 : ∀ p ∈ resultsBeforeEnsemble B adjusted days models inc,
      p.2.values.length = days := by
    intro p hp
    rcases resultsBeforeEnsemble_mem p hp with h1 | h1
    · subst h1
      simp [generate_fallback_forecast]
    · exact dispatch_ok_length (dispatchedResults_mem p h1).2.2.2
  rcases finalResults_ok_cases h with ⟨_, er, hE, hmr⟩ | ⟨_, hmr⟩
  · subst hmr
    refine ⟨dictInsert_ne_nil _ _ _, ?_⟩
    intro p hp
    rcases mem_dictInsert hp with h1 | h1
    · rw [h1]
      exact (ensemble_ok_length hE).1
    · exact hm1 p h1
  · subst hmr
    exact ⟨resultsBeforeEnsemble_ne_nil, hm1⟩

theorem finalResults_keys {B : Backends} {S2 : EngineState} {adjusted : List Row}
    {days : ℕ} {models : List String} {inc : Bool} {mr2 : List (String × ForecastResult)}
    {k : String} (h : finalResults B S2 adjusted days models inc = .ok mr2)
    (hk : k ∈ dictKeys mr2) :
    k = "Ensemble" ∨ k = "Fallback" ∨
      ∃ v, (k, v) ∈ dispatchedResults B adjusted days models inc := by
  obtain ⟨v, hv⟩ := mem_dictKeys.mp hk
  have hm1 : ∀ v2 : ForecastResult, (k, v2) ∈ resultsBeforeEnsemble B adjusted days models inc →
      k = "Fallback" ∨ ∃ v3, (k, v3) ∈ dispatchedResults B adjusted days models inc := by
    intro v2 h2
    rcases resultsBeforeEnsemble_mem _ h2 with h3 | h3
    · left
      exact congrArg Prod.fst h3
    · right
      exact ⟨v2, h3⟩
  rcases finalResults_ok_cases h with ⟨_, er, _, hmr⟩ | ⟨_, hmr⟩
  · subst hmr
    rcases mem_dictInsert hv with h1 | h1
    · left
      exact congrArg Prod.fst h1
    · rcases hm1 v h1 with h2 | h2
      · right
        left
        exact h2
      · right
        right
        exact h2
  · subst hmr
    rcases hm1 v hv with h2 | h2
    · right
      left
      exact h2
    · right
      right
      exact h2

theorem generate_forecast_ok_inv {B : Backends} {S : EngineState} {df : List Row} {days : ℕ}
    {models : List String} {inc : Bool} {scen : String} {calcM : Bool}
    {out : ForecastOutput} {S2 : EngineState}
    (h : generate_forecast B S df days models inc scen calcM = (.ok out, S2)) :
    S2 = stateAfterMetrics B S (apply_scenario_adjustment df (scenario_multiplier scen)) days
        models calcM ∧
    ∃ mr2 pts,
      finalResults B S2 (apply_scenario_adjustment df (scenario_multiplier scen)) days models
          inc = .ok mr2 ∧
      prepare_forecast_data mr2 (apply_scenario_adjustment df (scenario_multiplier scen)) days
          = .ok pts ∧
      out.forecast_data = pts ∧ out.models_used = dictKeys mr2 ∧ out.scenario = scen ∧
      out.model_metrics = S2.model_metrics ∧ out.model_weights = S2.model_weights := by
  simp only [generate_forecast] at h
  split at h
  · simp at h
  · rename_i mr2 heq
    split at h
    · simp at h
    · rename_i pts heq2
      rw [Prod.mk.injEq] at h
      obtain ⟨h1, hS⟩ := h
      rw [Except.ok.injEq] at h1
      refine ⟨hS.symm, mr2, pts, ?_, heq2, ?_, ?_, ?_, ?_, ?_⟩
      · rw [← hS]
        exact heq
      · rw [← h1]
      · rw [← h1]
      · rw [← h1]
      · rw [← h1, ← hS]
      · rw [← h1, ← hS]

theorem prepare_ok_length {mr : List (String × ForecastResult)} {df : List Row} {days : ℕ}
    {pts : List DataPoint} (h : prepare_forecast_data mr df days = .ok pts) :
    pts.length = days := by
  simp only [prepare_forecast_data] at h
  split at h
  · simp at h
  · rename_i r heq
    split_ifs at h with hle
    simp only [Except.ok.injEq] at h
    rw [← h]
    simp

theorem prepare_good {mr : List (String × ForecastResult)} {df : List Row} {days : ℕ}
    {pts : List DataPoint} (h : prepare_forecast_data mr df days = .ok pts)
    (hall : ∀ p ∈ mr, GoodRes days p.2) :
    ∀ pt ∈ pts, ∀ lo hi, pt.confidence_lower = some lo → pt.confidence_upper = some hi →
      lo ≤ pt.predicted_value ∧ pt.predicted_value ≤ hi := by
  simp only [prepare_forecast_data] at h
  split at h
  · simp at h
  · rename_i r heq
    have hgood : GoodRes days r := by
      rcases hE : dictGet ("Ensemble") mr with _ | r2
      · rw [hE] at heq
        rcases mr with _ | ⟨p, rest⟩
        · simp at heq
        · simp only [List.map_cons, List.head?_cons, Option.some.injEq] at heq
          exact heq ▸ hall p (List.mem_cons_self _ _)
      · rw [hE] at heq
        simp only [Option.some.injEq] at heq
        exact heq ▸ hall _ (mem_of_dictGet hE)
    split_ifs at h with hle
    simp only [Except.ok.injEq] at h
    subst h
    intro pt hpt lo hi hlo hhi
    rw [List.mem_map] at hpt
    obtain ⟨i, hi2, hpt⟩ := hpt
    rw [List.mem_range] at hi2
    subst hpt
    rcases hL : r.confidence_lower with _ | lo0
    · have hlo2 : (match r.confidence_lower with
        | some lo2 => if !lo2.isEmpty && decide (i < lo2.length)
                      then some (round2 (lo2.getD i 0)) else none
        | none => none) = some lo := hlo
      rw [hL] at hlo2
      simp at hlo2
    · rcases hH : r.confidence_upper with _ | hi0
      · have hhi2 : (match r.confidence_upper with
          | some hi2 => if !hi2.isEmpty && decide (i < hi2.length)
                        then some (round2 (hi2.getD i 0)) else none
          | none => none) = some hi := hhi
        rw [hH] at hhi2
        simp at hhi2
      · have hlo2 : (match r.confidence_lower with
          | some lo2 => if !lo2.isEmpty && decide (i < lo2.length)
                        then some (round2 (lo2.getD i 0)) else none
          | none => none) = some lo := hlo
        have hhi2 : (match r.confidence_upper with
          | some hi2 => if !hi2.isEmpty && decide (i < hi2.length)
                        then some (round2 (hi2.getD i 0)) else none
          | none => none) = some hi := hhi
        rw [hL] at hlo2
        rw [hH] at hhi2
        have hlo3 : (if !lo0.isEmpty && decide (i < lo0.length)
            then some (round2 (lo0.getD i 0)) else none) = some lo := hlo2
        have hhi3 : (if !hi0.isEmpty && decide (i < hi0.length)
            then some (round2 (hi0.getD i 0)) else none) = some hi := hhi2
        have hlo4 : lo = round2 (lo0.getD i 0) := by
          split_ifs at hlo3 with hb1
          injection hlo3 with h4
          exact h4.symm
        have hhi4 : hi = round2 (hi0.getD i 0) := by
          split_ifs at hhi3 with hb1
          injection hhi3 with h4
          exact h4.symm
        have hbr := hgood.2.2.2.2 lo0 hi0 hL hH i hi2
        show lo ≤ round2 (r.values.getD i 0) ∧ round2 (r.values.getD i 0) ≤ hi
        rw [hlo4, hhi4]
        exact ⟨round2_mono hbr.1, round2_mono hbr.2⟩

theorem finalResults_good {B : Backends} {S2 : EngineState} {adjusted : List Row} {days : ℕ}
    {models : List String} {inc : Bool} {mr2 : List (String × ForecastResult)}
    (hOK : OracleOK B) (hpos : ∀ rw2 ∈ adjusted, 0 < rw2.price) (hd : 1 ≤ days)
    (hdl : days ≤ adjusted.length)
    (HW : ((∀ m ∈ models, ¬ strLower m = "ensemble" → hasForecastMethod m = true →
            ∃ w, dictGet m S2.model_weights = some w ∧ 0 < w) ∧
           (∀ w ∈ dictValues S2.model_weights, 0 < w)) ∨ S2.model_weights = [])
    (h : finalResults B S2 adjusted days models inc = .ok mr2) :
    mr2 ≠ [] ∧ ∀ p ∈ mr2, GoodRes days p.2 := by
  have hm1 : ∀ p ∈ resultsBeforeEnsemble B adjusted days models inc,
      ¬ strLower p.1 = "ensemble" ∧ GoodRes days p.2 ∧
        (inc = true → p.2.confidence_lower.isSome) := by
    intro p hp
    rcases resultsBeforeEnsemble_mem p hp with h1 | h1
    · subst h1
      have h2 := fallback_shape (B := B) adjusted days hOK.1 hpos
      exact ⟨(by decide : ¬ strLower ("Fallback") = "ensemble"), h2.1, fun _ => h2.2⟩
    · obtain ⟨hmem, hens, hmeth, hok⟩ := dispatchedResults_mem p h1
      have h2 := dispatch_shape hOK hpos hdl hok
      exact ⟨hens, h2.1, h2.2⟩
  have hw : (∀ p ∈ resultsBeforeEnsemble B adjusted days models inc,
        ∃ w, dictGet p.1 S2.model_weights = some w ∧ 0 < w) ∨
      (∀ p ∈ resultsBeforeEnsemble B adjusted days models inc,
        dictGet p.1 S2.model_weights = none) := by
    rcases HW with ⟨hcov, hval⟩ | hnil
    · by_cases hemp : (dispatchedResults B adjusted days models inc).isEmpty
      · -- the fallback singleton: its key either has a stored weight or none
        rcases hF : dictGet ("Fallback") S2.model_weights with _ | w
        · right
          intro p hp
          rcases resultsBeforeEnsemble_mem p hp with h1 | h1
          · rw [h1]
            exact hF
          · exact absurd h1 (by rw [List.isEmpty_iff] at hemp; simp [hemp])
        · left
          intro p hp
          rcases resultsBeforeEnsemble_mem p hp with h1 | h1
          · rw [h1]
            exact ⟨w, hF, hval w (dictGet_mem_values hF)⟩
          · exact absurd h1 (by rw [List.isEmpty_iff] at hemp; simp [hemp])
      · left
        intro p hp
        have h2 : resultsBeforeEnsemble B adjusted days models inc =
            dispatchedResults B adjusted days models inc := by
          unfold resultsBeforeEnsemble
          rw [if_neg hemp]
        rw [h2] at hp
        obtain ⟨hmem, hens, hmeth, -⟩ := dispatchedResults_mem p hp
        exact hcov p.1 hmem hens hmeth
    · right
      intro p _
      rw [hnil]
      rfl
  rcases finalResults_ok_cases h with ⟨hens, er, hE, hmr⟩ | ⟨_, hmr⟩
  · subst hmr
    obtain ⟨er2, hE2, hg2, -⟩ := ensemble_good (B := B) resultsBeforeEnsemble_ne_nil hd hm1 hw
    have her : er2 = er := by
      rw [hE2] at hE
      exact (Except.ok.injEq _ _ ▸ hE)
    refine ⟨dictInsert_ne_nil _ _ _, ?_⟩
    intro p hp
    rcases mem_dictInsert hp with h1 | h1
    · rw [h1]
      exact her ▸ hg2
    · exact (hm1 p h1).2.1
  · subst hmr
    exact ⟨resultsBeforeEnsemble_ne_nil, fun p hp => (hm1 p hp).2.1⟩

theorem weightedSum_single (x : ℚ) : weightedSum [1] [x] = x := by
  simp [weightedSum]

theorem normalizeWeights_single (w : ℚ) : normalizeWeights [w] = [1] := by
  unfold normalizeWeights
  by_cases h : 0 < w
  · rw [if_pos (by simpa using h)]
    simp [div_self (ne_of_gt h)]
  · rw [if_neg (by simpa using h)]
    norm_num

theorem normalizeBoundWeights_single {w : ℚ} (h : 0 < w) :
    normalizeBoundWeights [w] = [1] := by
  unfold normalizeBoundWeights
  rw [if_pos (by simpa using h)]
  simp [div_self (ne_of_gt h)]

theorem ensembleContributors_single {name : String} {r : ForecastResult} {days : ℕ}
    (hname : ¬ strLower name = "ensemble") (hlen : days ≤ r.values.length) :
    ensembleContributors [(name, r)] days = [(name, r.values.take days)] := by
  unfold ensembleContributors
  rw [List.filter_cons, if_pos (by simp [hname, hlen]), List.filter_nil]
  rfl

theorem ensembleWeights_single {S : EngineState} {name : String} {r : ForecastResult}
    {days : ℕ} (hname : ¬ strLower name = "ensemble") (hlen : days ≤ r.values.length) :
    ensembleWeights S [(name, r)] days = [1] := by
  unfold ensembleWeights ensembleRawWeights
  rw [ensembleContributors_single hname hlen]
  exact normalizeWeights_single _

theorem ensembleValues_single {B : Backends} {S : EngineState} {name : String}
    {r : ForecastResult} {days : ℕ}
    (hname : ¬ strLower name = "ensemble") (hlen : days ≤ r.values.length) :
    ensembleValues S [(name, r)] days = r.values.take days := by
  unfold ensembleValues
  rw [ensembleContributors_single hname hlen, ensembleWeights_single hname hlen]
  have hws : ∀ i ∈ List.range days,
      weightedSum [1] ([(name, r.values.take days)].map (fun p => p.2.getD i 0)) =
        (r.values.take days).getD i 0 := by
    intro i _
    rw [List.map_cons, List.map_nil]
    exact weightedSum_single _
  rw [List.map_congr_left hws]
  exact range_map_getD (by rw [List.length_take]; omega)

theorem boundContributors_single {name : String} {r : ForecastResult} {days : ℕ}
    {lo hi : List ℚ} (hname : ¬ strLower name = "ensemble")
    (hlo : r.confidence_lower = some lo) (hhi : r.confidence_upper = some hi)
    (hlone : lo ≠ []) (hlol : days ≤ lo.length) :
    boundContributors [(name, r)] days = [(name, (lo.take days, hi.take days))] := by
  unfold boundContributors
  rw [List.filter_cons, if_pos ?_, List.filter_nil]
  · rw [List.map_cons, List.map_nil]
    simp [hlo, hhi]
  · simp only [hlo]
    simp [hname, List.isEmpty_iff, hlone, hlol]

theorem ensembleBounds_single {B : Backends} {S : EngineState} {name : String}
    {r : ForecastResult} {days : ℕ} {lo hi : List ℚ} (vals : List ℚ)
    (hname : ¬ strLower name = "ensemble")
    (hlo : r.confidence_lower = some lo) (hhi : r.confidence_upper = some hi)
    (hlone : lo ≠ []) (hlol : days ≤ lo.length) (hhil : days ≤ hi.length)
    (hw : ∀ w, dictGet name S.model_weights = some w → 0 < w) :
    calculate_weighted_ensemble_confidence B S [(name, r)] vals days =
      (lo.take days, hi.take days) := by
  have hcb := boundContributors_single hname hlo hhi hlone hlol
  have hraw : boundRawWeights S [(name, r)] days =
      [(dictGet name S.model_weights).getD 1] := by
    unfold boundRawWeights
    rw [hcb]
    rfl
  have hpos : 0 < (dictGet name S.model_weights).getD 1 := by
    rcases hW : dictGet name S.model_weights with _ | w
    · norm_num
    · exact hw w hW
  unfold calculate_weighted_ensemble_confidence
  rw [if_neg (by rw [List.isEmpty_iff, hcb]; simp)]
  rw [hcb, hraw, normalizeBoundWeights_single hpos]
  have hws1 : ∀ i ∈ List.range days,
      weightedSum [1] ([(name, (lo.take days, hi.take days))].map (fun p => p.2.1.getD i 0)) =
        (lo.take days).getD i 0 := by
    intro i _
    rw [List.map_cons, List.map_nil]
    exact weightedSum_single _
  have hws2 : ∀ i ∈ List.range days,
      weightedSum [1] ([(name, (lo.take days, hi.take days))].map (fun p => p.2.2.getD i 0)) =
        (hi.take days).getD i 0 := by
    intro i _
    rw [List.map_cons, List.map_nil]
    exact weightedSum_single _
  dsimp only
  rw [List.map_congr_left hws1, List.map_congr_left hws2]
  rw [range_map_getD (by rw [List.length_take]; omega),
      range_map_getD (by rw [List.length_take]; omega)]

theorem calculate_model_metrics_other {B : Backends} {df : List Row} {fd : ℕ}
    {models : List String} {k : String} (hk : k ∉ models) :
    dictGet k (calculate_model_metrics B emptyState df fd models).model_weights = none := by
  have hbase : dictGet k (metricsLoopState B emptyState df fd models).model_weights = none := by
    unfold metricsLoopState
    rw [metricsLoop_fold_other models emptyState k hk]
    rfl
  unfold calculate_model_metrics
  by_cases h1 : (df.take (df.length - fd)).length < 10
  · rw [if_pos h1]
    rfl
  · rw [if_neg h1]
    by_cases h2 : 0 <
        (dictValues (metricsLoopState B emptyState df fd models).model_weights).sum
    · rw [if_pos h2]
      dsimp only
      rw [dictGet_map_div, hbase]
      rfl
    · rw [if_neg h2]
      exact hbase

/-- C1: on a fresh engine, for every forecast invocation over positive
prices whose horizon fits the series, every assembled point that carries
both confidence bounds satisfies confidence_lower ≤ predicted_value ≤
confidence_upper after the two-decimal rounding — for every backing
technique including the fallback and the weighted ensemble — provided
the external predictors behave (OracleOK), in particular provided the
trained CatBoost artifact predicts nonnegative prices.  Corrected from
the unconditional claim of the spec: for a negative CatBoost prediction
the zero-clamped lower bound rises above the predicted value, and the
invariant fails (see the counterexample). -/
theorem C1_bounds_bracket_value {B : Backends} {df : List Row} {days : ℕ}
    {models : List String} {inc : Bool} {scen : String} {calcM : Bool}
    {out : ForecastOutput} {S2 : EngineState}
    (hOK : OracleOK B) (hpos : ∀ rw2 ∈ df, 0 < rw2.price) (hd : 1 ≤ days)
    (hdl : days ≤ df.length)
    (hrun : generate_forecast B emptyState df days models inc scen calcM = (.ok out, S2)) :
    ∀ pt ∈ out.forecast_data, ∀ lo hi, pt.confidence_lower = some lo →
      pt.confidence_upper = some hi →
      lo ≤ pt.predicted_value ∧ pt.predicted_value ≤ hi := by
  obtain ⟨hS2, mr2, pts, hfin, hprep, hfd, -, -, -, -⟩ := generate_forecast_ok_inv hrun
  have hmult := scenario_multiplier_pos scen
  have hpos2 := apply_scenario_adjustment_pos hmult hpos
  have hdl2 : days ≤ (apply_scenario_adjustment df (scenario_multiplier scen)).length := by
    rw [apply_scenario_adjustment_length]
    exact hdl
  have HW := @stateAfterMetrics_empty_facts B
    (apply_scenario_adjustment df (scenario_multiplier scen)) days models calcM hd
  rw [← hS2] at HW
  obtain ⟨-, hall⟩ := finalResults_good hOK hpos2 hd hdl2 HW hfin
  rw [hfd]
  exact prepare_good hprep hall

/-- C1 witness: the invariant applied to the single point of a concrete
run of the SMA adapter over a ten-day constant history, whose bounds and
value are all 100. -/
theorem C1_bounds_bracket_value_witness :
    (100 : ℚ) ≤ ({ date := 10, predicted_value := 100, model_used := "SMA"
                 , confidence_lower := some 100, confidence_upper := some 100 }
        : DataPoint).predicted_value ∧
    ({ date := 10, predicted_value := 100, model_used := "SMA"
     , confidence_lower := some 100, confidence_upper := some 100 }
        : DataPoint).predicted_value ≤ 100 :=
  @C1_bounds_bracket_value Bwit (dfConst 10) 1 (["sma"]) true ("realistic") false
    { forecast_data := [{ date := 10, predicted_value := 100, model_used := "SMA"
                        , confidence_lower := some 100, confidence_upper := some 100 }]
    , models_used := ["sma"], scenario := "realistic", model_metrics := []
    , model_weights := [] } emptyState
    (by refine ⟨fun q => le_refl 0, ?_, ?_, ?_⟩
        · intro a b c h
          simp [Bwit] at h
        · intro a b c h
          simp [Bwit] at h
        · intro a h
          simp [Bwit] at h)
    (by with_unfolding_all decide) (by decide) (by with_unfolding_all decide)
    (by with_unfolding_all rfl)
    { date := 10, predicted_value := 100, model_used := "SMA"
    , confidence_lower := some 100, confidence_upper := some 100 }
    (List.mem_singleton.mpr rfl) 100 100 rfl rfl

/-- C1 counterexample: with a loaded CatBoost artifact predicting the
constant -5 over a ten-day constant history, the assembled point carries
predicted value -5 with clamped lower bound 0, and 0 ≤ -5 fails. -/
theorem C1_counterexample :
    (generate_forecast BnegCat emptyState (dfConst 10) 1 (["catboost"]) true ("realistic")
        false).1 =
      .ok { forecast_data := [{ date := 10, predicted_value := -5, model_used := "CatBoost"
                              , confidence_lower := some 0, confidence_upper := some (-5) }]
          , models_used := ["catboost"], scenario := "realistic", model_metrics := []
          , model_weights := [] } ∧
    ¬ ((0 : ℚ) ≤ -5) := by
  exact ⟨by with_unfolding_all rfl, by with_unfolding_all decide⟩

/-- C2: when the metric pipeline runs (horizon plus ten strictly below
the series length) and at least one requested technique is scorable,
each scorable technique receives the unnormalized weight 1/MAE when its
backtest MAE is defined and positive and 1 otherwise (also on failure),
the stored normalized weights sum to exactly 1, and the fallback result
key "Fallback" receives no weight entry (its table only carries
requested technique names).  Confirmed. -/
theorem C2_unnormalized_weights {B : Backends} {df : List Row} {fd : ℕ}
    {models : List String} (hfd : 1 ≤ fd) (hlen : fd + 10 < df.length)
    (hex : ∃ m ∈ models, ¬ strLower m = "ensemble" ∧ hasForecastMethod m = true)
    (hFb : ("Fallback" : String) ∉ models) :
    ((dictValues (calculate_model_metrics B emptyState df fd models).model_weights).sum
        = 1) ∧
    (∀ m ∈ models, ¬ strLower m = "ensemble" → hasForecastMethod m = true →
      ∃ w, dictGet m (calculate_model_metrics B emptyState df fd models).model_weights =
          some w ∧ 0 < w ∧
        w * (dictValues (metricsLoopState B emptyState df fd models).model_weights).sum =
          specUnnormalizedWeight (backtestOutcome B (df.take (df.length - fd))
            ((df.drop (df.length - fd)).map (fun r => r.price))
            ((df.take (df.length - fd)).map (fun r => r.price)) fd m)) ∧
    dictGet ("Fallback") (calculate_model_metrics B emptyState df fd models).model_weights
      = none := by
  have hspec := calculate_model_metrics_spec (B := B) hfd hlen hex
  exact ⟨hspec.1, hspec.2.2, calculate_model_metrics_other hFb⟩

/-- C2 witness: the weight pipeline on a sixteen-day constant history at
horizon one with the single technique "sma". -/
theorem C2_unnormalized_weights_witness :
    ((dictValues (calculate_model_metrics Bwit emptyState df16 1 (["sma"])).model_weights).sum
        = 1) ∧
    (∀ m ∈ (["sma"] : List String), ¬ strLower m = "ensemble" → hasForecastMethod m = true →
      ∃ w, dictGet m (calculate_model_metrics Bwit emptyState df16 1 (["sma"])).model_weights =
          some w ∧ 0 < w ∧
        w * (dictValues (metricsLoopState Bwit emptyState df16 1 (["sma"])).model_weights).sum =
          specUnnormalizedWeight (backtestOutcome Bwit (df16.take (df16.length - 1))
            ((df16.drop (df16.length - 1)).map (fun r => r.price))
            ((df16.take (df16.length - 1)).map (fun r => r.price)) 1 m)) ∧
    dictGet ("Fallback") (calculate_model_metrics Bwit emptyState df16 1 (["sma"])).model_weights
      = none :=
  @C2_unnormalized_weights Bwit df16 1 (["sma"]) (by decide) (by with_unfolding_all decide)
    (by with_unfolding_all decide) (by decide)

/-- C3: every technique result the call produces — dispatched adapters,
the fallback, and the ensemble — carries exactly one value per horizon
day, and the assembled forecast_data list has exactly one point per
horizon day.  Confirmed. -/
theorem C3_horizon_lengths {B : Backends} {S2 : EngineState} {adjusted df : List Row}
    {days : ℕ} {models : List String} {inc : Bool} {scen : String} {calcM : Bool}
    {S : EngineState} (hd : 1 ≤ days) :
    (∀ mr2, finalResults B S2 adjusted days models inc = .ok mr2 →
      ∀ p ∈ mr2, p.2.values.length = days) ∧
    (∀ out S2b, generate_forecast B S df days models inc scen calcM = (.ok out, S2b) →
      out.forecast_data.length = days) := by
  constructor
  · intro mr2 h p hp
    exact (finalResults_mem_length h).2 p hp
  · intro out S2b h
    obtain ⟨-, mr2, pts, -, hprep, hfd, -, -, -, -⟩ := generate_forecast_ok_inv h
    rw [hfd]
    exact prepare_ok_length hprep

/-- C3 witness: the length invariants at horizon one on the three-point
series with the single technique "sma". -/
theorem C3_horizon_lengths_witness :
    (∀ mr2, finalResults Bwit emptyState df3 1 (["sma"]) false = .ok mr2 →
      ∀ p ∈ mr2, p.2.values.length = 1) ∧
    (∀ out S2b, generate_forecast Bwit emptyState df3 1 (["sma"]) false ("realistic") false =
        (.ok out, S2b) → out.forecast_data.length = 1) :=
  @C3_horizon_lengths Bwit emptyState df3 df3 1 (["sma"]) false ("realistic") false emptyState
    (by decide)

/-- C4: a technique whose dispatched forecast task raises is absent from
the returned models_used list (and so from the per-technique result
set), and the failure does not propagate: the call still returns its
result.  Confirmed, with the two result keys that never name a
dispatched task excluded: the literal fallback key "Fallback" and names
lowercasing to "ensemble". -/
theorem C4_raising_technique_absent {B : Backends} {S : EngineState} {df : List Row}
    {days : ℕ} {models : List String} {inc : Bool} {scen : String} {calcM : Bool}
    {m e : String} {out : ForecastOutput} {S2 : EngineState}
    (herr : dispatchModel B m (apply_scenario_adjustment df (scenario_multiplier scen))
      days inc = .error e)
    (hm1 : m ≠ "Fallback") (hm2 : ¬ strLower m = "ensemble")
    (hrun : generate_forecast B S df days models inc scen calcM = (.ok out, S2)) :
    m ∉ out.models_used := by
  obtain ⟨-, mr2, pts, hfin, -, -, hmu, -, -, -⟩ := generate_forecast_ok_inv hrun
  rw [hmu]
  intro hk
  rcases finalResults_keys hfin hk with h1 | h1 | ⟨v, hv⟩
  · subst h1
    exact hm2 (by decide)
  · exact hm1 h1
  · obtain ⟨-, -, -, hok⟩ := dispatchedResults_mem (m, v) hv
    rw [herr] at hok
    exact Except.noConfusion hok

/-- C4 witness: with statsmodels unavailable the "es" task raises; a run
requesting sma and es returns with models_used not containing "es". -/
theorem C4_raising_technique_absent_witness :
    ("es" : String) ∉
      ({ forecast_data := [{ date := 10, predicted_value := 100, model_used := "SMA"
                           , confidence_lower := some 100, confidence_upper := some 100 }]
       , models_used := ["sma"], scenario := "realistic", model_metrics := []
       , model_weights := [] } : ForecastOutput).models_used :=
  @C4_raising_technique_absent Bwit emptyState (dfConst 10) 1 (["sma", "es"]) true
    ("realistic") false ("es") ("statsmodels not available")
    { forecast_data := [{ date := 10, predicted_value := 100, model_used := "SMA"
                        , confidence_lower := some 100, confidence_upper := some 100 }]
    , models_used := ["sma"], scenario := "realistic", model_metrics := []
    , model_weights := [] } emptyState
    (by with_unfolding_all rfl) (by decide) (by decide) (by with_unfolding_all rfl)

/-- C5 (corrected): on the three-point series at horizon five every
requested technique fails (each needs at least seven points) and the
call indeed propagates no error, but what it returns is the mean-based
"Fallback" forecast of _generate_fallback_forecast — constant 20 with
bounds 0 and 40 on this series — not the hardcoded ultimate fallback of
100 with bounds 80 and 120 claimed by the spec, whose except branch is
unreachable from this path. -/
theorem C5_short_series_mean_fallback :
    (generate_forecast BC5 emptyState df3 5 (["sma", "wma"]) true ("realistic") false).1 =
      .ok { forecast_data :=
              [ { date := 3, predicted_value := 20, model_used := "Fallback"
                , confidence_lower := some 0, confidence_upper := some 40 }
              , { date := 4, predicted_value := 20, model_used := "Fallback"
                , confidence_lower := some 0, confidence_upper := some 40 }
              , { date := 5, predicted_value := 20, model_used := "Fallback"
                , confidence_lower := some 0, confidence_upper := some 40 }
              , { date := 6, predicted_value := 20, model_used := "Fallback"
                , confidence_lower := some 0, confidence_upper := some 40 }
              , { date := 7, predicted_value := 20, model_used := "Fallback"
                , confidence_lower := some 0, confidence_upper := some 40 } ]
          , models_used := ["Fallback"], scenario := "realistic", model_metrics := []
          , model_weights := [] } := by
  with_unfolding_all rfl

/-- C5 counterexample: the predicted values of that run are all 20, the
mean of the series, and not the ultimate fallback constant 100. -/
theorem C5_counterexample :
    (generate_forecast BC5 emptyState df3 5 (["sma", "wma"]) true ("realistic")
        false).1.map (fun o => o.forecast_data.map (fun pt => pt.predicted_value)) =
      .ok [20, 20, 20, 20, 20] ∧ (20 : ℚ) ≠ 100 := by
  exact ⟨by with_unfolding_all rfl, by with_unfolding_all decide⟩

/-- C6 (corrected): the engine state is not recomputed from each call's
own inputs: whenever a call skips metric calculation, its returned
weight and metric tables are exactly the tables the engine carried into
the call — for a second invocation, the first invocation's stored
tables — rather than empty ones, so entries derived during a first call
survive into the second call's output. -/
theorem C6_state_carries_over {B : Backends} {S : EngineState} {df : List Row} {days : ℕ}
    {models : List String} {inc : Bool} {scen : String} {out : ForecastOutput}
    {S2 : EngineState}
    (hrun : generate_forecast B S df days models inc scen false = (.ok out, S2)) :
    S2 = S ∧ out.model_weights = S.model_weights ∧ out.model_metrics = S.model_metrics := by
  obtain ⟨hS2, mr2, pts, -, -, -, -, -, hmm, hmw⟩ := generate_forecast_ok_inv hrun
  have hS : stateAfterMetrics B S (apply_scenario_adjustment df (scenario_multiplier scen))
      days models false = S := by
    unfold stateAfterMetrics
    rw [if_neg (by simp)]
  rw [hS] at hS2
  exact ⟨hS2, hS2 ▸ hmw, hS2 ▸ hmm⟩

/-- C6 witness: a metrics-skipping run on an engine carrying the weight
table [("sma", 1)] returns that same table. -/
theorem C6_state_carries_over_witness :
    ({ model_metrics := [], model_weights := [("sma", 1)] } : EngineState) =
      { model_metrics := [], model_weights := [("sma", 1)] } ∧
    ({ forecast_data := [{ date := 10, predicted_value := 100, model_used := "SMA"
                         , confidence_lower := none, confidence_upper := none }]
     , models_used := ["sma"], scenario := "realistic", model_metrics := []
     , model_weights := [("sma", 1)] } : ForecastOutput).model_weights =
      ({ model_metrics := [], model_weights := [("sma", 1)] } : EngineState).model_weights ∧
    ({ forecast_data := [{ date := 10, predicted_value := 100, model_used := "SMA"
                         , confidence_lower := none, confidence_upper := none }]
     , models_used := ["sma"], scenario := "realistic", model_metrics := []
     , model_weights := [("sma", 1)] } : ForecastOutput).model_metrics =
      ({ model_metrics := [], model_weights := [("sma", 1)] } : EngineState).model_metrics :=
  @C6_state_carries_over Bwit { model_metrics := [], model_weights := [("sma", 1)] }
    (dfConst 10) 1 (["sma"]) false ("realistic")
    { forecast_data := [{ date := 10, predicted_value := 100, model_used := "SMA"
                        , confidence_lower := none, confidence_upper := none }]
    , models_used := ["sma"], scenario := "realistic", model_metrics := []
    , model_weights := [("sma", 1)] }
    { model_metrics := [], model_weights := [("sma", 1)] }
    (by with_unfolding_all rfl)

/-- C6 counterexample: a first call with metrics enabled stores the
weight table [("sma", 1)] on the engine; a second call on the same
engine with metric calculation skipped returns that very table instead
of an empty one. -/
theorem C6_counterexample :
    (generate_forecast Bwit (generate_forecast Bwit emptyState df16 1 (["sma"]) false
        ("realistic") true).2 df16 1 (["sma"]) false ("realistic") false).1.map
      (fun o => o.model_weights) = .ok [("sma", 1)] ∧
    ([("sma", (1 : ℚ))] : List (String × ℚ)) ≠ [] := by
  exact ⟨by with_unfolding_all rfl, by simp⟩

/-- C7: when exactly one non-ensemble technique result covers the full
horizon, with bounds of the full horizon length, the generated ensemble
reproduces that technique's values and bounds entry for entry — the
single weight normalizes to exactly 1.  Confirmed (under the standing
engine invariant that a stored weight, if present, is positive). -/
theorem C7_singleton_ensemble_identity {B : Backends} {S : EngineState} {name : String}
    {r : ForecastResult} {days : ℕ} {lo hi : List ℚ}
    (hname : ¬ strLower name = "ensemble") (hd : 1 ≤ days)
    (hvlen : r.values.length = days)
    (hlo : r.confidence_lower = some lo) (hhi : r.confidence_upper = some hi)
    (hlol : lo.length = days) (hhil : hi.length = days)
    (hw : ∀ w, dictGet name S.model_weights = some w → 0 < w) :
    ∃ er, generate_weighted_ensemble_forecast B S [(name, r)] days true = .ok er ∧
      er.values = r.values ∧ er.confidence_lower = some lo ∧
      er.confidence_upper = some hi := by
  have hlen : days ≤ r.values.length := le_of_eq hvlen.symm
  have hlone : lo ≠ [] := by
    intro h
    rw [h] at hlol
    simp at hlol
    omega
  have hcsne : ensembleContributors [(name, r)] days ≠ [] := by
    rw [ensembleContributors_single hname hlen]
    simp
  have hbnds := @ensembleBounds_single B S name r days lo hi
    (ensembleValues S [(name, r)] days) hname hlo hhi hlone (le_of_eq hlol.symm)
    (le_of_eq hhil.symm) hw
  refine ⟨_, ensemble_ok_eq (by simp) hcsne, ?_, ?_, ?_⟩
  · show ensembleValues S [(name, r)] days = r.values
    rw [@ensembleValues_single B S name r days hname hlen]
    exact List.take_of_length_le (le_of_eq hvlen)
  · show (if true = true then some (calculate_weighted_ensemble_confidence B S [(name, r)]
        (ensembleValues S [(name, r)] days) days) else none).map (fun p => p.1) = some lo
    rw [if_pos rfl, Option.map_some', hbnds]
    rw [List.take_of_length_le (le_of_eq hlol)]
  · show (if true = true then some (calculate_weighted_ensemble_confidence B S [(name, r)]
        (ensembleValues S [(name, r)] days) days) else none).map (fun p => p.2) = some hi
    rw [if_pos rfl, Option.map_some', hbnds]
    rw [List.take_of_length_le (le_of_eq hhil)]

/-- C7 witness: the singleton ensemble over the concrete two-day result
rA reproduces rA exactly. -/
theorem C7_singleton_ensemble_identity_witness :
    ∃ er, generate_weighted_ensemble_forecast Bwit emptyState [("a", rA)] 2 true = .ok er ∧
      er.values = rA.values ∧ er.confidence_lower = some [9, 9] ∧
      er.confidence_upper = some [11, 11] :=
  @C7_singleton_ensemble_identity Bwit emptyState ("a") rA 2 [9, 9] [11, 11]
    (by decide) (by decide) (by with_unfolding_all rfl) (by with_unfolding_all rfl)
    (by with_unfolding_all rfl) (by with_unfolding_all rfl) (by with_unfolding_all rfl)
    (by intro w h; simp [emptyState, dictGet] at h)

/-- C8 (corrected): the ensemble bound aggregator recomputes its own
weights over the bound-supplying techniques (stored weight with default
1), which is not in general the point-forecast weight vector (default 1
over the result count, collected over all value contributors): the two
only coincide when every value contributor also supplies full-horizon
bounds and the stored weights are either present and positive for all
contributors or absent for all, as after one fresh-engine metric pass.
Under those conditions the bounds equal the weighted sums of the
contributors' bounds with the same normalized weights as the point
forecast; the counterexample shows the general claim fails when one
contributor's bounds are shorter than the horizon. -/
theorem C8_bound_weights_alignment {B : Backends} {S : EngineState}
    {mr : List (String × ForecastResult)} {days : ℕ} (vals : List ℚ) (hne : mr ≠ [])
    (hd : 1 ≤ days)
    (hall : ∀ p ∈ mr, ¬ strLower p.1 = "ensemble" ∧ days ≤ p.2.values.length ∧
      ∃ lo, p.2.confidence_lower = some lo ∧ days ≤ lo.length)
    (hw : (∀ p ∈ mr, ∃ w, dictGet p.1 S.model_weights = some w ∧ 0 < w) ∨
          (∀ p ∈ mr, dictGet p.1 S.model_weights = none)) :
    normalizeBoundWeights (boundRawWeights S mr days) = ensembleWeights S mr days ∧
    calculate_weighted_ensemble_confidence B S mr vals days =
      specSameWeightBounds S mr days := by
  have hcv := @ensembleContributors_all mr days
    (fun p hp => ⟨(hall p hp).1, (hall p hp).2.1⟩)
  have hcb := boundContributors_all hd (fun p hp => ⟨(hall p hp).1, (hall p hp).2.2⟩)
  have hmatch := bound_weights_match hne hcv hcb hw
  refine ⟨hmatch, ?_⟩
  rw [@ensemble_conf_eq B S mr days vals hne hcb, hmatch]
  rfl

/-- C8 witness: the alignment on the two full-bounds results rA and rB
with no stored weights. -/
theorem C8_bound_weights_alignment_witness :
    normalizeBoundWeights (boundRawWeights emptyState mrAB 2) =
      ensembleWeights emptyState mrAB 2 ∧
    calculate_weighted_ensemble_confidence Bwit emptyState mrAB [15, 15] 2 =
      specSameWeightBounds emptyState mrAB 2 :=
  @C8_bound_weights_alignment Bwit emptyState mrAB 2 [15, 15]
    (by with_unfolding_all decide) (by decide) (by with_unfolding_all decide)
    (Or.inr (by with_unfolding_all decide))

/-- C8 counterexample: with contributor e supplying one-day bounds over
a two-day horizon, the computed ensemble bounds are e-free averages with
weight vector [1] while the same-weights aggregation of the spec would
halve them: the two disagree. -/
theorem C8_counterexample :
    calculate_weighted_ensemble_confidence Bwit emptyState mrC8 [15, 15] 2 =
      ([9, 9], [11, 11]) ∧
    specSameWeightBounds emptyState mrC8 2 = ([9 / 2, 9 / 2], [11 / 2, 11 / 2]) ∧
    (([9, 9], [11, 11]) : List ℚ × List ℚ) ≠ ([9 / 2, 9 / 2], [11 / 2, 11 / 2]) := by
  refine ⟨by with_unfolding_all rfl, by with_unfolding_all rfl, by with_unfolding_all decide⟩

/-- C9 (corrected): the fallback result is named "Fallback", every value
is the mean historical price, and the bounds sit two sample standard
deviations from the value when the series has more than one point — but
for a single-point series they sit at twenty percent of the mean (the
source doubles a ten-percent deviation), not the ten percent the spec
claims. -/
theorem C9_fallback_spec (B : Backends) (df : List Row) (days : ℕ) :
    generate_fallback_forecast B df days = specFallbackResult B df days := by
  unfold generate_fallback_forecast specFallbackResult
  have h : (if 1 < df.length then pdStd B (df.map (fun r => r.price))
      else qmean (df.map (fun r => r.price)) * (1 / 10)) * 2 =
      (if 1 < df.length then 2 * B.sqrtNN (sampleVar (df.map (fun r => r.price)))
       else qmean (df.map (fun r => r.price)) * (20 / 100)) := by
    split_ifs with h1
    · unfold pdStd
      ring
    · ring
  dsimp only
  rw [h]

/-- C9 counterexample: on the single-point series [50] the fallback
bounds are 40 and 60 — twenty percent of the mean away — and not the
45 and 55 that a ten-percent band would give. -/
theorem C9_counterexample :
    generate_fallback_forecast Bwit df1 1 =
      { values := [50], confidence_lower := some [40], confidence_upper := some [60]
      , model_name := "Fallback" } ∧
    (40 : ℚ) ≠ 50 - 50 * (10 / 100) := by
  exact ⟨by with_unfolding_all rfl, by with_unfolding_all decide⟩

theorem prepare_eq_of_ensemble {mr : List (String × ForecastResult)} {df : List Row}
    {days : ℕ} {r : ForecastResult} (hE : dictGet ("Ensemble") mr = some r)
    (hle : days ≤ r.values.length) :
    prepare_forecast_data mr df days = .ok ((List.range days).map (fun i =>
      { date := ((df.map (fun r2 => r2.date)).foldl max 0) + i + 1
      , predicted_value := round2 (r.values.getD i 0)
      , model_used := r.model_name
      , confidence_lower := match r.confidence_lower with
          | some lo => if !lo.isEmpty && decide (i < lo.length)
                       then some (round2 (lo.getD i 0)) else none
          | none => none
      , confidence_upper := match r.confidence_upper with
          | some hi => if !hi.isEmpty && decide (i < hi.length)
                       then some (round2 (hi.getD i 0)) else none
          | none => none })) := by
  simp only [prepare_forecast_data, hE]
  rw [if_pos hle]

/-- C10: with the requested list exactly ["ensemble"] (the documented
default) no adapter task is dispatched at all: the per-model result set
is empty, the fallback handler supplies the only contributor, and the
returned forecast is the ensemble of that single fallback result —
every assembled point is backed by "Ensemble" and predicts the rounded
scenario-adjusted historical mean price, never the output of a real
forecasting technique.  Confirmed (on a fresh engine). -/
theorem C10_ensemble_only_is_fallback_mean {B : Backends} {df : List Row} {days : ℕ}
    {inc : Bool} {scen : String} {calcM : Bool} {out : ForecastOutput} {S2 : EngineState}
    (hd : 1 ≤ days)
    (hrun : generate_forecast B emptyState df days (["ensemble"]) inc scen calcM =
      (.ok out, S2)) :
    dispatchedResults B (apply_scenario_adjustment df (scenario_multiplier scen)) days
      (["ensemble"]) inc = [] ∧
    out.models_used = ["Fallback", "Ensemble"] ∧
    ∀ pt ∈ out.forecast_data, pt.model_used = "Ensemble" ∧
      pt.predicted_value = round2 (qmean ((apply_scenario_adjustment df
        (scenario_multiplier scen)).map (fun r => r.price))) := by
  obtain ⟨hS2, mr2, pts, hfin, hprep, hfd, hmu, -, -, -⟩ := generate_forecast_ok_inv hrun
  set adj := apply_scenario_adjustment df (scenario_multiplier scen) with hadj
  have hdisp : dispatchedResults B adj days (["ensemble"]) inc = [] := rfl
  have hS0 : stateAfterMetrics B emptyState adj days (["ensemble"]) calcM = emptyState := by
    unfold stateAfterMetrics
    split_ifs with h
    · refine calculate_model_metrics_skip ?_
      intro m hm
      rw [List.mem_singleton] at hm
      subst hm
      left
      decide
    · rfl
  rw [hS0] at hS2
  have hmr1 : resultsBeforeEnsemble B adj days (["ensemble"]) inc =
      [("Fallback", generate_fallback_forecast B adj days)] := by
    unfold resultsBeforeEnsemble
    rw [hdisp]
    rfl
  have hlenfb : days ≤ (generate_fallback_forecast B adj days).values.length := by
    simp [generate_fallback_forecast]
  rcases finalResults_ok_cases hfin with ⟨-, er, hE, hmr⟩ | ⟨hno, -⟩
  · rw [hmr1] at hE hmr
    rw [hS2] at hE
    have hcsne : ensembleContributors
        [("Fallback", generate_fallback_forecast B adj days)] days ≠ [] := by
      rw [ensembleContributors_single (by decide) hlenfb]
      simp
    have hook := @ensemble_ok_eq B emptyState
      [("Fallback", generate_fallback_forecast B adj days)] days inc (by simp) hcsne
    rw [hook] at hE
    rw [Except.ok.injEq] at hE
    have hval : er.values = List.replicate days (qmean (adj.map (fun r => r.price))) := by
      rw [← hE]
      dsimp only
      rw [@ensembleValues_single B emptyState ("Fallback")
        (generate_fallback_forecast B adj days) days (by decide) hlenfb]
      show ((List.replicate days (qmean (adj.map (fun r => r.price)))).take days) = _
      rw [List.take_replicate]
      simp
    have hname : er.model_name = "Ensemble" := by
      rw [← hE]
    have hget : dictGet ("Ensemble") mr2 = some er := by
      rw [hmr]
      exact dictGet_insert_self _ _ _
    have hklist : dictKeys mr2 = ["Fallback", "Ensemble"] := by
      rw [hmr]
      rfl
    refine ⟨hdisp, by rw [hmu, hklist], ?_⟩
    have hle2 : days ≤ er.values.length := by
      rw [hval]
      simp
    rw [prepare_eq_of_ensemble hget hle2] at hprep
    rw [Except.ok.injEq] at hprep
    rw [hfd, ← hprep]
    intro pt hpt
    rw [List.mem_map] at hpt
    obtain ⟨i, hi2, hpt⟩ := hpt
    rw [List.mem_range] at hi2
    subst hpt
    refine ⟨hname, ?_⟩
    show round2 (er.values.getD i 0) = _
    rw [hval, getD_replicate hi2]
  · exact absurd hno (by decide)

/-- C10 witness: the default invocation on the three-point series at
horizon one: only the fallback runs and the single assembled point is
the ensemble of its mean, 20. -/
theorem C10_ensemble_only_is_fallback_mean_witness :
    dispatchedResults Bwit (apply_scenario_adjustment df3 (scenario_multiplier ("realistic")))
      1 (["ensemble"]) false = [] ∧
    ({ forecast_data := [{ date := 3, predicted_value := 20, model_used := "Ensemble"
                         , confidence_lower := none, confidence_upper := none }]
     , models_used := ["Fallback", "Ensemble"], scenario := "realistic"
     , model_metrics := [], model_weights := [] } : ForecastOutput).models_used =
      ["Fallback", "Ensemble"] ∧
    ∀ pt ∈ ({ forecast_data := [{ date := 3, predicted_value := 20, model_used := "Ensemble"
                                , confidence_lower := none, confidence_upper := none }]
            , models_used := ["Fallback", "Ensemble"], scenario := "realistic"
            , model_metrics := [], model_weights := [] } : ForecastOutput).forecast_data,
      pt.model_used = "Ensemble" ∧
      pt.predicted_value = round2 (qmean ((apply_scenario_adjustment df3
        (scenario_multiplier ("realistic"))).map (fun r => r.price))) :=
  @C10_ensemble_only_is_fallback_mean Bwit df3 1 false ("realistic") false
    { forecast_data := [{ date := 3, predicted_value := 20, model_used := "Ensemble"
                        , confidence_lower := none, confidence_upper := none }]
    , models_used := ["Fallback", "Ensemble"], scenario := "realistic"
    , model_metrics := [], model_weights := [] } emptyState
    (by decide) (by with_unfolding_all rfl)

end AgriPredict
